import Mathlib

/-!
Verification of the maritime route planner (FastAPI backend, `src/backend/main.py`).

The Python source is shallowly embedded over the real numbers: Python floats
become `ℝ`, the lazily loaded global piracy index becomes an explicit list
parameter, the `while` loop of the A* search becomes a fuel-indexed step
function (`astarStep` / `runA`) whose fuel is proved sufficient, and the one
place where the source can raise (`interpolate_geodesic` divides by a zero
segment count) returns `Option`.
-/

open Real

noncomputable section

-- ----------------------------------------------------------------------------
-- Geo helpers (src/backend/main.py lines 32-62)
-- ----------------------------------------------------------------------------

/-- Conversion factor, line 32 of the source. -/
def KM_TO_NM : ℝ := 0.539957

/-- Earth radius in km, line 34 of the source. -/
def R_KM : ℝ := 6371.0088

/-- `math.radians`: degrees to radians. -/
def rad (x : ℝ) : ℝ := x * π / 180

/-- The quantity `a` shared by `haversine_km` (line 41) and the `d` of
`interpolate_geodesic` (line 47). -/
def havA (lat1 lon1 lat2 lon2 : ℝ) : ℝ :=
  sin ((rad lat2 - rad lat1) / 2) ^ 2 +
    cos (rad lat1) * cos (rad lat2) * sin ((rad lon2 - rad lon1) / 2) ^ 2

/-- `haversine_km`, lines 37-43 of the source: `R_KM * (2*asin(sqrt a))`. -/
def haversine_km (lat1 lon1 lat2 lon2 : ℝ) : ℝ :=
  R_KM * (2 * arcsin (Real.sqrt (havA lat1 lon1 lat2 lon2)))

/-- `haversine_km(...) * KM_TO_NM`, the nautical-mile distance used at every
call site of the source. -/
def havNm (lat1 lon1 lat2 lon2 : ℝ) : ℝ :=
  haversine_km lat1 lon1 lat2 lon2 * KM_TO_NM

/-- `math.atan2 y x`: the argument of the complex number `x + y*i`. -/
def atan2 (y x : ℝ) : ℝ := Complex.arg (Complex.ofReal x + Complex.ofReal y * Complex.I)

/-- Python float `x % m` for positive `m`: the representative of `x` modulo `m`
in `[0, m)`. -/
def pymod (x m : ℝ) : ℝ := x - m * (⌊x / m⌋ : ℤ)

/-- The angular separation `d` of `interpolate_geodesic`, line 47. -/
def geoD (lat1 lon1 lat2 lon2 : ℝ) : ℝ :=
  2 * arcsin (Real.sqrt (havA lat1 lon1 lat2 lon2))

/-- One interpolated point of `interpolate_geodesic` (lines 52-61), at fraction
`f`, returned as a `(lon, lat)` pair in degrees.  Line 61 of the source
converts back to degrees dividing by the literal `3.141592653589793`, which
is exactly the binary64 value of `math.pi` used by `math.radians`; the
embedding therefore maps both constants to the same real `π`. -/
def interpPoint (ph1 la1 ph2 la2 d f : ℝ) : ℝ × ℝ :=
  let A := sin ((1 - f) * d) / sin d
  let B := sin (f * d) / sin d
  let x := A * cos ph1 * cos la1 + B * cos ph2 * cos la2
  let y := A * cos ph1 * sin la1 + B * cos ph2 * sin la2
  let z := A * sin ph1 + B * sin ph2
  let phi := atan2 z (Real.sqrt (x * x + y * y))
  let lai := atan2 y x
  (pymod (lai * 180 / π + 540) 360 - 180, phi * 180 / π)

/-- `interpolate_geodesic`, lines 45-62.  The source raises
`ZeroDivisionError` when `n = 0` and the separation is nonzero (it computes
`i / n`); that failure is modelled as `none`. -/
def interpolate_geodesic (lat1 lon1 lat2 lon2 : ℝ) (n : ℕ) : Option (List (ℝ × ℝ)) :=
  let d := geoD lat1 lon1 lat2 lon2
  if d = 0 then some [(lon1, lat1)]
  else if n = 0 then none
  else some ((List.range (n + 1)).map fun i : ℕ =>
    interpPoint (rad lat1) (rad lon1) (rad lat2) (rad lon2) d ((i : ℝ) / (n : ℝ)))

-- ----------------------------------------------------------------------------
-- Models (lines 67-89)
-- ----------------------------------------------------------------------------

structure Waypoint where
  lat : ℝ
  lon : ℝ

structure HazardCircle where
  lat : ℝ
  lon : ℝ
  radius_nm : ℝ

/-- `AvoidRequest`, lines 80-89 of the source, including the placeholder
fields `storm_weight` and `depth_penalty_nm`. -/
structure AvoidRequest where
  origin : Waypoint
  destination : Waypoint
  hazards : List HazardCircle := []
  grid_step_deg : ℝ := 1
  penalty_nm : ℝ := 200
  max_nodes : ℤ := 200000
  piracy_weight : ℝ := 0
  storm_weight : ℝ := 0
  depth_penalty_nm : ℝ := 0

-- ----------------------------------------------------------------------------
-- Piracy index (lines 94-154): the loaded point set is an explicit parameter
-- ----------------------------------------------------------------------------

/-- `PiracyIndex._key`, line 105. -/
def cellKey (cell lat lon : ℝ) : ℤ × ℤ :=
  (⌊(lat + 90) / cell⌋, ⌊(lon + 180) / cell⌋)

/-- Chebyshev distance between grid cells; `ring` of `nearest_nm` visits
exactly the cells at Chebyshev distance `ring` from the base cell. -/
def chebDist (a b : ℤ × ℤ) : ℤ := max |a.1 - b.1| |a.2 - b.2|

/-- Distances (in nm) from the query point to the indexed incidents found in
the square ring at Chebyshev distance `ring`, lines 138-149. -/
def ringDistances (cell : ℝ) (pts : List (ℝ × ℝ)) (lat lon : ℝ)
    (base : ℤ × ℤ) (ring : ℕ) : List ℝ :=
  (pts.filter fun p => chebDist (cellKey cell p.1 p.2) base = (ring : ℤ)).map
    fun p => havNm lat lon p.1 p.2

/-- The running minimum `best_nm` accumulated over one ring, lines 150-151. -/
def listMin : List ℝ → Option ℝ
  | [] => none
  | x :: xs => some (match listMin xs with | none => x | some m => min x m)

/-- `PiracyIndex.nearest_nm`, lines 130-154: expand ring by ring, return the
minimum of the first ring that holds any incident; `none` for an empty index
or when every ring up to `maxRings` is empty. -/
def nearest_nm (cell : ℝ) (pts : List (ℝ × ℝ)) (lat lon : ℝ) (maxRings : ℕ) : Option ℝ :=
  if pts = [] then none
  else (List.range (maxRings + 1)).findSome? fun ring =>
    listMin (ringDistances cell pts lat lon (cellKey cell lat lon) ring)

/-- `piracy_penalty_nm`, lines 210-229.  The global lazily loaded index
(cell size 1.0, `max_rings` defaulting to 3) is the parameter `pts`. -/
def piracy_penalty_nm (pts : List (ℝ × ℝ)) (lat lon weight : ℝ) : ℝ :=
  if weight ≤ 0 then 0
  else match nearest_nm 1 pts lat lon 3 with
    | none => 0
    | some d =>
      (if d ≤ 100 then 500 * (1 - d / 100)
       else if d ≤ 300 then 100 * (1 - (d - 100) / 200)
       else 0) * max 0 (min 1 weight)

-- ----------------------------------------------------------------------------
-- A* avoid routing (lines 203-304)
-- ----------------------------------------------------------------------------

/-- `inside_hazard`, lines 203-208. -/
def inside_hazard (lat lon : ℝ) (hazards : List HazardCircle) : Prop :=
  ∃ h ∈ hazards, haversine_km lat lon h.lat h.lon * KM_TO_NM ≤ h.radius_nm

instance (lat lon : ℝ) (hazards : List HazardCircle) :
    Decidable (inside_hazard lat lon hazards) :=
  List.decidableBEx _ hazards

/-- Python's `round` (banker's rounding: ties go to the even integer). -/
def pyRound (x : ℝ) : ℤ :=
  if Int.fract x = 1 / 2 then (if Even ⌊x⌋ then ⌊x⌋ else ⌊x⌋ + 1) else round x

/-- `snap`, lines 237-238: `round(x / s) * s`. -/
def snap (x s : ℝ) : ℝ := (pyRound (x / s) : ℝ) * s

/-- A grid node: a `(lat, lon)` pair. -/
abbrev Node : Type := ℝ × ℝ

/-- A priority-queue entry `(f, g, node, parent)` as pushed on line 248/283. -/
abbrev Entry : Type := ℝ × ℝ × Node × Option Node

/-- The eight moves of line 243. -/
def dirs (step : ℝ) : List (ℝ × ℝ) :=
  [(0, step), (0, -step), (step, 0), (-step, 0),
   (step, step), (step, -step), (-step, step), (-step, -step)]

/-- Lines 268-270: wrap a longitude once by ±360. -/
def wrapLon (lon : ℝ) : ℝ :=
  let l := if lon < -180 then lon + 360 else lon
  if l > 180 then l - 360 else l

/-- Lexicographic order on nodes, as Python compares `(lat, lon)` tuples. -/
def nodeLt (a b : Node) : Prop := a.1 < b.1 ∨ (a.1 = b.1 ∧ a.2 < b.2)

instance (a b : Node) : Decidable (nodeLt a b) := by
  unfold nodeLt; infer_instance

/-- The order `heapq` uses on entries: lexicographic on `(f, g, node)`. -/
def entryLt (a b : Entry) : Prop :=
  a.1 < b.1 ∨ (a.1 = b.1 ∧ (a.2.1 < b.2.1 ∨ (a.2.1 = b.2.1 ∧ nodeLt a.2.2.1 b.2.2.1)))

instance (a b : Entry) : Decidable (entryLt a b) := by
  unfold entryLt; infer_instance

/-- `heappop`: remove a least entry (leftmost among equals) from the queue,
modelled as a list. -/
def popMin : List Entry → Option (Entry × List Entry)
  | [] => none
  | e :: rest =>
    match popMin rest with
    | none => some (e, [])
    | some (m, rest1) => if entryLt m e then some (m, e :: rest1) else some (e, rest)

/-- Association-list lookup keyed by node, for the `came` and `bestg` dicts
(later bindings are consed in front, so the first hit is the current one). -/
def alookup {α : Type} : List (Node × α) → Node → Option α
  | [], _ => none
  | (k, v) :: rest, n => if n = k then some v else alookup rest n

/-- The per-request configuration of one `a_star_route` call. -/
structure SearchEnv where
  pts : List (ℝ × ℝ)
  hazards : List HazardCircle
  penalty_nm : ℝ
  piracy_weight : ℝ
  step : ℝ
  goal : Node
  max_nodes : ℤ

/-- The heuristic `h`, lines 244-245. -/
def hfun (env : SearchEnv) (n : Node) : ℝ := havNm n.1 n.2 env.goal.1 env.goal.2

/-- The edge cost of lines 273-279: segment distance plus the static hazard
penalty plus the piracy penalty, both charged on the neighbor. -/
def edge_cost (pts : List (ℝ × ℝ)) (hazards : List HazardCircle)
    (penalty_nm piracy_weight : ℝ) (cur nb : Node) : ℝ :=
  havNm cur.1 cur.2 nb.1 nb.2 +
    (if inside_hazard nb.1 nb.2 hazards then penalty_nm else 0) +
    piracy_penalty_nm pts nb.1 nb.2 piracy_weight

/-- The mutable search state of lines 247-251: open queue, predecessor map,
best-known-cost map, pop counter. -/
structure AState where
  openq : List Entry
  came : List (Node × Option Node)
  bestg : List (Node × ℝ)
  visited : ℕ

/-- Lines 264-283: process one direction from the node `cur` (with cost `g`)
being expanded: pole filter, longitude wrap, relax and push. -/
def expandDir (env : SearchEnv) (cur : Node) (g : ℝ) (s : AState) (dir : ℝ × ℝ) : AState :=
  let nbLat := cur.1 + dir.1
  if nbLat < -89.5 ∨ nbLat > 89.5 then s
  else
    let nb : Node := (nbLat, wrapLon (cur.2 + dir.2))
    let ng := g + edge_cost env.pts env.hazards env.penalty_nm env.piracy_weight cur nb
    let pushed : AState :=
      { s with bestg := (nb, ng) :: s.bestg,
               openq := s.openq ++ [(ng + hfun env nb, ng, nb, some cur)] }
    match alookup s.bestg nb with
    | none => pushed
    | some bg => if ng < bg then pushed else s

/-- Why the `while` loop of lines 253-283 stopped. -/
inductive StopReason where
  | goalFound
  | budget
  | exhausted
deriving DecidableEq

/-- One iteration of the `while` loop, lines 253-283: pop, count, skip stale
entries, finalize, stop on goal or exceeded budget, otherwise expand. -/
def astarStep (env : SearchEnv) (s : AState) : AState ⊕ (AState × StopReason) :=
  match popMin s.openq with
  | none => Sum.inr (s, StopReason.exhausted)
  | some (e, rest) =>
    let g := e.2.1
    let cur := e.2.2.1
    let par := e.2.2.2
    let s1 : AState := ⟨rest, s.came, s.bestg, s.visited + 1⟩
    if (alookup s.came cur).isSome then Sum.inl s1
    else
      let s2 : AState := ⟨rest, (cur, par) :: s.came, s.bestg, s.visited + 1⟩
      if cur = env.goal then Sum.inr (s2, StopReason.goalFound)
      else if (s2.visited : ℤ) > env.max_nodes then Sum.inr (s2, StopReason.budget)
      else Sum.inl ((dirs env.step).foldl (expandDir env cur g) s2)

/-- Run the loop with the given fuel; `none` means the fuel ran out (proved
impossible for `astarFuel`). -/
def runA (env : SearchEnv) : ℕ → AState → Option (AState × StopReason)
  | 0, s =>
    match astarStep env s with
    | Sum.inr r => some r
    | Sum.inl _ => none
  | n + 1, s =>
    match astarStep env s with
    | Sum.inr r => some r
    | Sum.inl s1 => runA env n s1

/-- The number of finalizations the budget `max_nodes` permits, plus one. -/
def budgetB (mn : ℤ) : ℕ := (max 0 (mn + 1)).toNat

/-- A fuel bound sufficient for the loop to reach its stopping point. -/
def astarFuel (env : SearchEnv) : ℕ := 9 * budgetB env.max_nodes + 1

/-- Loop-variant measure: each iteration strictly decreases it. -/
def measureA (env : SearchEnv) (s : AState) : ℕ :=
  9 * (budgetB env.max_nodes - min (budgetB env.max_nodes) s.came.length) + s.openq.length

/-- The initial state, lines 247-251. -/
def initState (env : SearchEnv) (start : Node) : AState :=
  ⟨[(0 + hfun env start, 0, start, none)], [], [(start, 0)], 0⟩

/-- The path-reconstruction loop of lines 291-296: follow predecessor links. -/
def chain (came : List (Node × Option Node)) : ℕ → Node → List Node
  | 0, n => [n]
  | fuel + 1, n =>
    match alookup came n with
    | some (some p) => n :: chain came fuel p
    | _ => [n]

/-- `total_nm` of lines 298-302: sum of consecutive haversine distances. -/
def pathDistNm : List Node → ℝ
  | a :: b :: rest => havNm a.1 a.2 b.1 b.2 + pathDistNm (b :: rest)
  | _ => 0

/-- The tuple `a_star_route` returns, line 235: coordinates (as `(lon, lat)`
pairs), total distance in nm, pop count, A*-success flag. -/
structure RouteResult where
  coords : List (ℝ × ℝ)
  dist_nm : ℝ
  visited : ℕ
  used_astar : Bool

/-- `a_star_route`, lines 231-304.  `pts` is the loaded piracy index. -/
def a_star_route (pts : List (ℝ × ℝ)) (o d : Waypoint) (step : ℝ)
    (hazards : List HazardCircle) (penalty_nm : ℝ) (max_nodes : ℤ)
    (piracy_weight : ℝ) : RouteResult :=
  let start : Node := (snap o.lat step, snap o.lon step)
  let goal : Node := (snap d.lat step, snap d.lon step)
  let env : SearchEnv := ⟨pts, hazards, penalty_nm, piracy_weight, step, goal, max_nodes⟩
  match runA env (astarFuel env) (initState env start) with
  | none => ⟨[], 0, 0, false⟩
  | some (s, _) =>
    if (alookup s.came goal).isSome then
      let path := (chain s.came s.came.length goal).reverse
      ⟨path.map fun n => (n.2, n.1), pathDistNm path, s.visited, true⟩
    else
      ⟨(interpolate_geodesic o.lat o.lon d.lat d.lon 128).getD [],
        havNm o.lat o.lon d.lat d.lon, s.visited, false⟩

/-- The `/plan_avoid` endpoint, lines 306-316: note which request fields are
passed to `a_star_route` (the storm and depth placeholders are not). -/
def plan_avoid (pts : List (ℝ × ℝ)) (req : AvoidRequest) : RouteResult :=
  a_star_route pts req.origin req.destination req.grid_step_deg req.hazards
    req.penalty_nm req.max_nodes req.piracy_weight

/-- The edge cost `a_star_route` computes for a request, with the fields
`plan_avoid` forwards (lines 306-316 and 273-279). -/
def avoidEdgeCost (pts : List (ℝ × ℝ)) (req : AvoidRequest) (cur nb : Node) : ℝ :=
  edge_cost pts req.hazards req.penalty_nm req.piracy_weight cur nb

-- ----------------------------------------------------------------------------
-- Auxiliary definitions used by the proofs
-- ----------------------------------------------------------------------------

/-- A request used to compare storm weights; only `storm_weight` varies. -/
def stormReq (w : ℝ) : AvoidRequest :=
  ⟨⟨0, 0⟩, ⟨0, 30⟩, [], 1, 200, 200000, 0, w, 0⟩

/-- The search configuration of the concrete run refuting the claimed stop
condition: equator grid with step 90°, a hazard of radius 1 nm centred on the
origin, a negative static penalty, piracy weight 0, budget 3. -/
def cexEnv : SearchEnv :=
  ⟨[], [⟨0, 0, 1⟩], -20000, 0, 90, (0, 180), 3⟩

/-- Nautical-mile distance between equator nodes 90° of longitude apart. -/
def qq : ℝ := R_KM * (π / 2) * KM_TO_NM

/-- State of the concrete run after pop 1 (start `(0,0)` finalized and
expanded towards `(0,90)` and `(0,-90)`). -/
def cexS1 : AState :=
  ⟨[(2 * qq, qq, (0, 90), some (0, 0)), (2 * qq, qq, (0, -90), some (0, 0))],
   [((0, 0), none)],
   [((0, -90), qq), ((0, 90), qq), ((0, 0), 0)], 1⟩

/-- State after pop 2 (`(0,-90)` finalized; the negative penalty at the
origin makes the re-push of the already finalized start improving). -/
def cexS2 : AState :=
  ⟨[(2 * qq, qq, (0, 90), some (0, 0)),
    (4 * qq - 20000, 2 * qq - 20000, (0, 0), some (0, -90)),
    (2 * qq, 2 * qq, (0, -180), some (0, -90))],
   [((0, -90), some (0, 0)), ((0, 0), none)],
   [((0, -180), 2 * qq), ((0, 0), 2 * qq - 20000), ((0, -90), qq), ((0, 90), qq), ((0, 0), 0)],
   2⟩

/-- State after pop 3: the stale re-pushed entry for the start is popped and
skipped, incrementing `visited` without finalizing anything. -/
def cexS3 : AState :=
  ⟨[(2 * qq, qq, (0, 90), some (0, 0)), (2 * qq, 2 * qq, (0, -180), some (0, -90))],
   cexS2.came, cexS2.bestg, 3⟩

/-- Final state: pop 4 finalizes `(0,90)` and the loop breaks on the budget
check with only 3 nodes finalized, a nonempty queue and the goal unreached. -/
def cexFinal : AState :=
  ⟨[(2 * qq, 2 * qq, (0, -180), some (0, -90))],
   [((0, 90), some (0, 0)), ((0, -90), some (0, 0)), ((0, 0), none)],
   cexS2.bestg, 4⟩

/-- The point on the unit sphere with the given coordinates in degrees; the
haversine distance is the Earth radius times the angle between two such
vectors, which gives the triangle inequality. -/
def uvec (lat lon : ℝ) : ℝ × ℝ × ℝ :=
  (cos (rad lat) * cos (rad lon), cos (rad lat) * sin (rad lon), sin (rad lat))

/-- Euclidean inner product on ℝ³ (as nested pairs). -/
def dot3 (u v : ℝ × ℝ × ℝ) : ℝ := u.1 * v.1 + u.2.1 * v.2.1 + u.2.2 * v.2.2

/-- The keys of the predecessor map. -/
def keysOf (came : List (Node × Option Node)) : List Node := came.map fun x => x.1

/-- Wellformedness of the predecessor map as the loop builds it (newest entry
first): keys are distinct, a `none` parent marks the start node, and a `some`
parent is a key finalized strictly earlier (i.e. in the tail). -/
def WFcame (start : Node) : List (Node × Option Node) → Prop
  | [] => True
  | (n, p) :: rest =>
      (match p with
       | none => n = start
       | some q => q ∈ keysOf rest) ∧ n ∉ keysOf rest ∧ WFcame start rest

/-- Invariant of open-queue entries: a `none` parent only on the initial
entry for the start node, and a `some` parent is an already finalized key. -/
def OpenInv (start : Node) (came : List (Node × Option Node)) (openq : List Entry) : Prop :=
  ∀ e ∈ openq, (e.2.2.2 = none → e.2.2.1 = start) ∧
    ∀ q, e.2.2.2 = some q → q ∈ keysOf came

end

-- ----------------------------------------------------------------------------
-- Basic geometry lemmas
-- ----------------------------------------------------------------------------

lemma sin_half_sq_symm (u v : ℝ) : sin ((u - v) / 2) ^ 2 = sin ((v - u) / 2) ^ 2 := by
  rw [show (u - v) / 2 = -((v - u) / 2) by ring, Real.sin_neg]
  ring

lemma havA_symm (lat1 lon1 lat2 lon2 : ℝ) :
    havA lat1 lon1 lat2 lon2 = havA lat2 lon2 lat1 lon1 := by
  unfold havA
  rw [sin_half_sq_symm (rad lat2) (rad lat1), sin_half_sq_symm (rad lon2) (rad lon1)]
  ring

lemma havA_self (lat lon : ℝ) : havA lat lon lat lon = 0 := by
  simp [havA]

lemma haversine_self (lat lon : ℝ) : haversine_km lat lon lat lon = 0 := by
  simp [haversine_km, havA_self]

lemma haversine_nonneg (lat1 lon1 lat2 lon2 : ℝ) : 0 ≤ haversine_km lat1 lon1 lat2 lon2 := by
  unfold haversine_km
  have h1 : (0:ℝ) ≤ arcsin (Real.sqrt (havA lat1 lon1 lat2 lon2)) :=
    Real.arcsin_nonneg.mpr (Real.sqrt_nonneg _)
  have h2 : (0:ℝ) ≤ R_KM := by norm_num [R_KM]
  nlinarith

lemma havNm_nonneg (lat1 lon1 lat2 lon2 : ℝ) : 0 ≤ havNm lat1 lon1 lat2 lon2 := by
  unfold havNm
  have := haversine_nonneg lat1 lon1 lat2 lon2
  have h2 : (0:ℝ) ≤ KM_TO_NM := by norm_num [KM_TO_NM]
  nlinarith

/-- C8.  The haversine distance (km and nm forms) is symmetric in its two
points and vanishes on identical points, exactly. -/
theorem haversine_symm_and_self (lat1 lon1 lat2 lon2 : ℝ) :
    haversine_km lat1 lon1 lat2 lon2 = haversine_km lat2 lon2 lat1 lon1 ∧
    havNm lat1 lon1 lat2 lon2 = havNm lat2 lon2 lat1 lon1 ∧
    haversine_km lat1 lon1 lat1 lon1 = 0 ∧ havNm lat1 lon1 lat1 lon1 = 0 := by
  have hsym : haversine_km lat1 lon1 lat2 lon2 = haversine_km lat2 lon2 lat1 lon1 := by
    unfold haversine_km
    rw [havA_symm]
  refine ⟨hsym, by unfold havNm; rw [hsym], haversine_self _ _, ?_⟩
  unfold havNm
  rw [haversine_self]
  ring

-- ----------------------------------------------------------------------------
-- Cost model lemmas (C1, C2, C10)
-- ----------------------------------------------------------------------------

lemma piracy_penalty_nonneg (pts : List (ℝ × ℝ)) (lat lon w : ℝ) :
    0 ≤ piracy_penalty_nm pts lat lon w := by
  unfold piracy_penalty_nm
  split
  · exact le_refl 0
  · cases hnd : nearest_nm 1 pts lat lon 3 with
    | none => simp
    | some d =>
      simp only
      have h2 : (0:ℝ) ≤ max 0 (min 1 w) := le_max_left 0 _
      have h1 : (0:ℝ) ≤ if d ≤ 100 then 500 * (1 - d / 100)
          else if d ≤ 300 then 100 * (1 - (d - 100) / 200) else 0 := by
        split
        · rename_i h; nlinarith
        · split
          · rename_i h _; nlinarith
          · exact le_refl 0
      exact mul_nonneg h1 h2

/-- C1 counterexample.  At a neighbor whose latitude 15° lies inside the
claimed 10°-25° storm band, a request with storm weight 1 and the same request
with storm weight 0 produce the same edge cost: the code computes no
storm-band term. -/
theorem stormBand_concrete_equal_cost :
    avoidEdgeCost [] (stormReq 1) (14, 0) (15, 0) = avoidEdgeCost [] (stormReq 0) (14, 0) (15, 0) ∧
    (10:ℝ) ≤ |(15:ℝ)| ∧ |(15:ℝ)| ≤ 25 ∧ (stormReq 1).storm_weight ≠ (stormReq 0).storm_weight := by
  refine ⟨rfl, by norm_num, by norm_num, by norm_num [stormReq]⟩

/-- C1 amended.  The hazard-avoiding search computes no storm-band term at
all: `plan_avoid` never forwards `storm_weight` to `a_star_route`, so the
edge cost of every candidate neighbor is identical for any two storm
weights. -/
theorem stormWeight_never_affects_cost (pts : List (ℝ × ℝ)) (req : AvoidRequest)
    (w1 w2 : ℝ) (cur nb : Node) :
    avoidEdgeCost pts { req with storm_weight := w1 } cur nb =
      avoidEdgeCost pts { req with storm_weight := w2 } cur nb := rfl

/-- C2 counterexample.  The caller-supplied static penalty constant is not
clamped to be nonnegative: with `penalty_nm = -10000` and a hazard circle
containing the neighbor, the edge cost drops strictly below the base
great-circle distance. -/
theorem negative_penalty_cost_below_distance :
    edge_cost [] [⟨0, 1, 5⟩] (-10000) 0 (0, 0) (0, 1) < havNm 0 0 0 1 := by
  have hin : inside_hazard 0 1 [(⟨0, 1, 5⟩ : HazardCircle)] := by
    refine ⟨⟨0, 1, 5⟩, List.mem_singleton.mpr rfl, ?_⟩
    show haversine_km 0 1 0 1 * KM_TO_NM ≤ 5
    rw [haversine_self]
    norm_num [KM_TO_NM]
  have h0 : piracy_penalty_nm [] 0 1 0 = 0 := if_pos le_rfl
  show edge_cost [] [⟨0, 1, 5⟩] (-10000) 0 (0, 0) (0, 1) < havNm 0 0 0 1
  unfold edge_cost
  show havNm 0 0 0 1 + (if inside_hazard 0 1 [⟨0, 1, 5⟩] then (-10000:ℝ) else 0) +
      piracy_penalty_nm [] 0 1 0 < havNm 0 0 0 1
  rw [if_pos hin, h0]
  linarith

/-- C2 amended.  With a nonnegative penalty constant the edge cost is at
least the base great-circle distance: the piracy weight is clamped into
[0,1] so its term is nonnegative for every weight, but the static penalty
constant is applied unclamped, so the bound needs `0 ≤ penalty_nm`. -/
theorem edge_cost_ge_distance_of_penalty_nonneg (pts : List (ℝ × ℝ))
    (hazards : List HazardCircle) (penalty_nm piracy_weight : ℝ)
    (cur nb : Node) (hpen : 0 ≤ penalty_nm) :
    havNm cur.1 cur.2 nb.1 nb.2 ≤ edge_cost pts hazards penalty_nm piracy_weight cur nb := by
  unfold edge_cost
  have h1 : (0:ℝ) ≤ if inside_hazard nb.1 nb.2 hazards then penalty_nm else 0 := by
    split
    · exact hpen
    · exact le_refl 0
  have h2 := piracy_penalty_nonneg pts nb.1 nb.2 piracy_weight
  linarith

/-- C9.  Whenever every indexed incident lies in a cell more than `max_rings`
(3) rings away from the query point's home cell, `nearest_nm` returns `none`,
regardless of how many incidents the index holds. -/
theorem nearest_none_beyond_rings (cell : ℝ) (pts : List (ℝ × ℝ)) (lat lon : ℝ)
    (hfar : ∀ p ∈ pts, 3 < chebDist (cellKey cell p.1 p.2) (cellKey cell lat lon)) :
    nearest_nm cell pts lat lon 3 = none := by
  unfold nearest_nm
  split
  · rfl
  · apply List.findSome?_eq_none_iff.mpr
    intro r hr
    have hr4 : r < 3 + 1 := List.mem_range.mp hr
    have hempty : (pts.filter fun p =>
        chebDist (cellKey cell p.1 p.2) (cellKey cell lat lon) = (r : ℤ)) = [] := by
      apply List.filter_eq_nil_iff.mpr
      intro p hp
      simp only [decide_eq_true_eq]
      intro hEq
      have := hfar p hp
      omega
    unfold ringDistances
    rw [hempty]
    rfl

theorem nearest_none_beyond_rings_witness :
    [((0:ℝ), (10:ℝ))] ≠ ([] : List (ℝ × ℝ)) ∧
      nearest_nm 1 [((0:ℝ), (10:ℝ))] 0 0 3 = none := by
  constructor
  · simp
  · apply nearest_none_beyond_rings
    intro p hp
    rw [List.mem_singleton] at hp
    subst hp
    show 3 < chebDist (cellKey 1 0 10) (cellKey 1 0 0)
    norm_num [cellKey, chebDist]

lemma piracy_penalty_nonpos_weight (pts : List (ℝ × ℝ)) (lat lon w : ℝ) (hw : w ≤ 0) :
    piracy_penalty_nm pts lat lon w = 0 := if_pos hw

lemma edge_cost_pts_irrel (pts1 pts2 : List (ℝ × ℝ)) (hz : List HazardCircle)
    (pen w : ℝ) (cur nb : Node) (hw : w ≤ 0) :
    edge_cost pts1 hz pen w cur nb = edge_cost pts2 hz pen w cur nb := by
  unfold edge_cost
  rw [piracy_penalty_nonpos_weight pts1 _ _ _ hw, piracy_penalty_nonpos_weight pts2 _ _ _ hw]

lemma expandDir_pts_irrel (pts1 pts2 : List (ℝ × ℝ)) (hz : List HazardCircle)
    (pen w st : ℝ) (goal : Node) (mn : ℤ) (hw : w ≤ 0) :
    expandDir ⟨pts1, hz, pen, w, st, goal, mn⟩ = expandDir ⟨pts2, hz, pen, w, st, goal, mn⟩ := by
  funext cur g s dir
  simp only [expandDir, hfun]
  rw [edge_cost_pts_irrel pts1 pts2 hz pen w cur _ hw]

lemma astarStep_pts_irrel (pts1 pts2 : List (ℝ × ℝ)) (hz : List HazardCircle)
    (pen w st : ℝ) (goal : Node) (mn : ℤ) (hw : w ≤ 0) :
    astarStep ⟨pts1, hz, pen, w, st, goal, mn⟩ = astarStep ⟨pts2, hz, pen, w, st, goal, mn⟩ := by
  funext s
  simp only [astarStep]
  rw [expandDir_pts_irrel pts1 pts2 hz pen w st goal mn hw]

lemma runA_pts_irrel (pts1 pts2 : List (ℝ × ℝ)) (hz : List HazardCircle)
    (pen w st : ℝ) (goal : Node) (mn : ℤ) (hw : w ≤ 0) :
    runA ⟨pts1, hz, pen, w, st, goal, mn⟩ = runA ⟨pts2, hz, pen, w, st, goal, mn⟩ := by
  funext n
  induction n with
  | zero =>
    funext s
    unfold runA
    rw [astarStep_pts_irrel pts1 pts2 hz pen w st goal mn hw]
  | succ n ih =>
    funext s
    unfold runA
    rw [astarStep_pts_irrel pts1 pts2 hz pen w st goal mn hw, ih]

/-- C10.  With a nonpositive piracy weight the piracy penalty is identically
zero and the whole hazard-avoiding search is independent of the piracy
dataset: two runs of the same request against different datasets return the
same result. -/
theorem piracy_weight_zero_independent_of_dataset (pts1 pts2 : List (ℝ × ℝ))
    (o d : Waypoint) (step : ℝ) (hazards : List HazardCircle)
    (penalty_nm : ℝ) (max_nodes : ℤ) (pw : ℝ) (hw : pw ≤ 0) :
    a_star_route pts1 o d step hazards penalty_nm max_nodes pw =
      a_star_route pts2 o d step hazards penalty_nm max_nodes pw ∧
    ∀ lat lon, piracy_penalty_nm pts1 lat lon pw = 0 := by
  constructor
  · simp only [a_star_route]
    rw [runA_pts_irrel pts1 pts2 hazards penalty_nm pw step _ max_nodes hw]
    rfl
  · intro lat lon
    exact if_pos hw

theorem piracy_weight_zero_independent_witness :
    (0:ℝ) ≤ 0 ∧
      a_star_route [] ⟨0, 0⟩ ⟨0, 1⟩ 1 [] 200 10 0 =
        a_star_route [((5:ℝ), (5:ℝ))] ⟨0, 0⟩ ⟨0, 1⟩ 1 [] 200 10 0 :=
  ⟨le_refl 0,
    (piracy_weight_zero_independent_of_dataset [] [((5:ℝ), (5:ℝ))] ⟨0, 0⟩ ⟨0, 1⟩ 1 [] 200 10 0
      (le_refl 0)).1⟩

theorem edge_cost_ge_distance_witness :
    (0:ℝ) ≤ 200 ∧
      havNm 0 0 0 1 ≤ edge_cost [] [] 200 (1/2) ((0:ℝ), (0:ℝ)) ((0:ℝ), (1:ℝ)) :=
  ⟨by norm_num,
    edge_cost_ge_distance_of_penalty_nonneg [] [] 200 (1/2) ((0:ℝ), (0:ℝ)) ((0:ℝ), (1:ℝ))
      (by norm_num)⟩

-- ----------------------------------------------------------------------------
-- Neighbor generation bounds (C4)
-- ----------------------------------------------------------------------------

lemma wrapLon_bounds (l : ℝ) (h1 : -540 ≤ l) (h2 : l ≤ 540) :
    -180 ≤ wrapLon l ∧ wrapLon l ≤ 180 := by
  simp only [wrapLon]
  split_ifs <;> constructor <;> linarith

/-- C4 amended.  Every neighbor entry pushed by grid expansion has latitude in
the closed interval `[-89.5, 89.5]` (moves beyond it are discarded, the
boundary itself is kept) and longitude in the closed interval `[-180, 180]`
(the single wrap by ±360 can land exactly on 180), provided the current node's
longitude is in `[-180, 180]` and the step is at most 360° in magnitude. -/
theorem neighbor_lat_lon_bounds (env : SearchEnv) (cur : Node) (g : ℝ)
    (s : AState) (dir : ℝ × ℝ) (e : Entry)
    (hcur : |cur.2| ≤ 180) (hstep : |env.step| ≤ 360)
    (hdir : dir ∈ dirs env.step) (he : e ∈ (expandDir env cur g s dir).openq) :
    e ∈ s.openq ∨
      (-89.5 ≤ e.2.2.1.1 ∧ e.2.2.1.1 ≤ 89.5 ∧ -180 ≤ e.2.2.1.2 ∧ e.2.2.1.2 ≤ 180) := by
  have hdx : |dir.2| ≤ |env.step| := by
    simp only [dirs, List.mem_cons, List.not_mem_nil, or_false] at hdir
    rcases hdir with h | h | h | h | h | h | h | h <;> subst h <;>
      simp [abs_neg, le_refl, abs_nonneg]
  have hlon : -540 ≤ cur.2 + dir.2 ∧ cur.2 + dir.2 ≤ 540 := by
    have hdx2 : |dir.2| ≤ 360 := le_trans hdx hstep
    rw [abs_le] at hcur hdx2
    constructor <;> linarith [hdx2.1, hdx2.2, hcur.1, hcur.2]
  unfold expandDir at he
  by_cases hclip : cur.1 + dir.1 < -89.5 ∨ cur.1 + dir.1 > 89.5
  · rw [if_pos hclip] at he
    exact Or.inl he
  · rw [if_neg hclip] at he
    push_neg at hclip
    have hw := wrapLon_bounds (cur.2 + dir.2) hlon.1 hlon.2
    set nb : Node := (cur.1 + dir.1, wrapLon (cur.2 + dir.2)) with hnb
    have hbounds : -89.5 ≤ nb.1 ∧ nb.1 ≤ 89.5 ∧ -180 ≤ nb.2 ∧ nb.2 ≤ 180 := by
      exact ⟨hclip.1, hclip.2, hw.1, hw.2⟩
    rcases hmatch : alookup s.bestg nb with _ | bg
    · simp only [hmatch, List.mem_append, List.mem_singleton] at he
      rcases he with he | he
      · exact Or.inl he
      · subst he
        exact Or.inr hbounds
    · simp only [hmatch] at he
      split_ifs at he
      · simp only [List.mem_append, List.mem_singleton] at he
        rcases he with he | he
        · exact Or.inl he
        · subst he
          exact Or.inr hbounds
      · exact Or.inl he

/-- C4 counterexample.  The claim's strict bounds fail on the boundary: the
move `(0, 90)` from node `(0°, 90°)` with step 90 generates the neighbor
`(0, 180)`, whose longitude 180 is not in the half-open interval `[-180, 180)`,
and the move `(89.5, 0)` from `(0, 0)` with step 89.5 generates the neighbor
`(89.5, 0)`, whose latitude is not strictly inside `(-89.5, 89.5)`. -/
theorem neighbor_on_boundary_generated :
    ((0:ℝ), (90:ℝ)) ∈ dirs 90 ∧
    (∃ e ∈ (expandDir ⟨[], [], 200, 0, 90, (0, 0), 100⟩ (0, 90) 0 ⟨[], [], [], 0⟩
        (0, 90)).openq, e.2.2.1 = ((0:ℝ), (180:ℝ))) ∧
    ¬((180:ℝ) < 180) ∧
    ((89.5:ℝ), (0:ℝ)) ∈ dirs 89.5 ∧
    (∃ e ∈ (expandDir ⟨[], [], 200, 0, 89.5, (0, 0), 100⟩ (0, 0) 0 ⟨[], [], [], 0⟩
        (89.5, 0)).openq, e.2.2.1 = ((89.5:ℝ), (0:ℝ))) ∧
    ¬((89.5:ℝ) < 89.5) := by
  refine ⟨by simp [dirs], ?_, by norm_num, by simp [dirs], ?_, by norm_num⟩
  · have h180 : wrapLon (180:ℝ) = 180 := by
      simp only [wrapLon]
      norm_num
    simp only [expandDir, alookup]
    norm_num [h180]
  · have h0 : wrapLon (0:ℝ) = 0 := by
      simp only [wrapLon]
      norm_num
    simp only [expandDir, alookup]
    norm_num [h0]

theorem neighbor_lat_lon_bounds_witness :
    |((0:ℝ), (0:ℝ)).2| ≤ 180 ∧
    |(SearchEnv.mk [] [] 200 0 1 (0, 0) 100).step| ≤ 360 ∧
    ((0:ℝ), (1:ℝ)) ∈ dirs 1 ∧
    ∀ e ∈ (expandDir ⟨[], [], 200, 0, 1, (0, 0), 100⟩ ((0:ℝ), (0:ℝ)) 0
        ⟨[], [], [], 0⟩ ((0:ℝ), (1:ℝ))).openq,
      e ∈ (⟨[], [], [], 0⟩ : AState).openq ∨
        (-89.5 ≤ e.2.2.1.1 ∧ e.2.2.1.1 ≤ 89.5 ∧ -180 ≤ e.2.2.1.2 ∧ e.2.2.1.2 ≤ 180) := by
  refine ⟨by norm_num, by norm_num, by simp [dirs], ?_⟩
  intro e he
  exact neighbor_lat_lon_bounds ⟨[], [], 200, 0, 1, (0, 0), 100⟩ ((0:ℝ), (0:ℝ)) 0
    ⟨[], [], [], 0⟩ ((0:ℝ), (1:ℝ)) e (by norm_num) (by norm_num) (by simp [dirs]) he

-- ----------------------------------------------------------------------------
-- Running the loop (C7: budget zero falls back to the great circle)
-- ----------------------------------------------------------------------------

lemma runA_of_inr (env : SearchEnv) (s : AState) (r : AState × StopReason)
    (h : astarStep env s = Sum.inr r) (n : ℕ) : runA env n s = some r := by
  cases n <;> simp [runA, h]

lemma runA_of_inl (env : SearchEnv) (s s1 : AState)
    (h : astarStep env s = Sum.inl s1) (n : ℕ) : runA env (n + 1) s = runA env n s1 := by
  simp [runA, h]

lemma pyRound_intCast (n : ℤ) : pyRound (n : ℝ) = n := by
  unfold pyRound
  rw [Int.fract_intCast]
  norm_num

lemma pyRound_zero : pyRound 0 = 0 := by
  have := pyRound_intCast 0
  norm_num at this
  exact this

lemma pyRound_one : pyRound 1 = 1 := by
  have := pyRound_intCast 1
  norm_num at this
  exact this

lemma snap_zero_step (s : ℝ) : snap 0 s = 0 := by
  unfold snap
  rw [zero_div, pyRound_zero]
  norm_num

lemma snap_self_one (x : ℝ) : snap x 1 = (pyRound x : ℝ) := by
  unfold snap
  rw [div_one, mul_one]

/-- The first iteration of the loop: the start node is popped from the
singleton queue and finalized; with a budget below 1 and a goal different
from the start, the loop stops at once with the budget reason. -/
lemma astar_first_step (env : SearchEnv) (start : Node) (hne : start ≠ env.goal)
    (hmn : env.max_nodes < 1) :
    astarStep env (initState env start) =
      Sum.inr (⟨[], [(start, none)], [(start, 0)], 1⟩, StopReason.budget) := by
  simp only [astarStep, initState, popMin, alookup, Option.isSome]
  rw [if_neg hne]
  rw [if_pos (by exact_mod_cast hmn : ((0 + 1 : ℕ) : ℤ) > env.max_nodes)]
  norm_num

lemma interpolate_isSome (lat1 lon1 lat2 lon2 : ℝ) (n : ℕ) (hn : n ≠ 0) :
    (interpolate_geodesic lat1 lon1 lat2 lon2 n).isSome := by
  unfold interpolate_geodesic
  by_cases hd : geoD lat1 lon1 lat2 lon2 = 0
  · simp [hd]
  · simp [hd, hn]

lemma a_star_budget0 (pts : List (ℝ × ℝ)) (o d : Waypoint) (step : ℝ)
    (hazards : List HazardCircle) (pen pw : ℝ)
    (hne : ((snap o.lat step, snap o.lon step) : Node) ≠ (snap d.lat step, snap d.lon step)) :
    a_star_route pts o d step hazards pen 0 pw =
      ⟨(interpolate_geodesic o.lat o.lon d.lat d.lon 128).getD [],
       havNm o.lat o.lon d.lat d.lon, 1, false⟩ := by
  simp only [a_star_route]
  rw [runA_of_inr _ _ _ (astar_first_step _ _ hne (by norm_num))]
  simp only [alookup]
  rw [if_neg (Ne.symm hne)]
  simp only [alookup, Option.isSome]
  rfl

/-- C7.  With `max_nodes = 0` and distinct snapped endpoints, the search
returns immediately with the fallback: `used_astar = false`, the path is the
128-segment great-circle interpolation between the unsnapped origin and
destination, the reported distance is their haversine distance (and the
interpolation is well defined). -/
theorem max_nodes_zero_fallback (pts : List (ℝ × ℝ)) (o d : Waypoint) (step : ℝ)
    (hazards : List HazardCircle) (pen pw : ℝ)
    (hne : ((snap o.lat step, snap o.lon step) : Node) ≠ (snap d.lat step, snap d.lon step)) :
    a_star_route pts o d step hazards pen 0 pw =
      ⟨(interpolate_geodesic o.lat o.lon d.lat d.lon 128).getD [],
       havNm o.lat o.lon d.lat d.lon, 1, false⟩ ∧
    (interpolate_geodesic o.lat o.lon d.lat d.lon 128).isSome :=
  ⟨a_star_budget0 pts o d step hazards pen pw hne,
   interpolate_isSome o.lat o.lon d.lat d.lon 128 (by norm_num)⟩

theorem max_nodes_zero_fallback_witness :
    ((snap (0:ℝ) 1, snap (0:ℝ) 1) : Node) ≠ (snap (0:ℝ) 1, snap (1:ℝ) 1) ∧
    a_star_route [] ⟨0, 0⟩ ⟨0, 1⟩ 1 [] 200 0 0 =
      ⟨(interpolate_geodesic 0 0 0 1 128).getD [], havNm 0 0 0 1, 1, false⟩ ∧
    (interpolate_geodesic 0 0 0 1 128).isSome := by
  have hne : ((snap (0:ℝ) 1, snap (0:ℝ) 1) : Node) ≠ (snap (0:ℝ) 1, snap (1:ℝ) 1) := by
    rw [snap_zero_step, snap_self_one, pyRound_one]
    norm_num [Prod.ext_iff]
  refine ⟨hne, ?_⟩
  exact max_nodes_zero_fallback [] ⟨0, 0⟩ ⟨0, 1⟩ 1 [] 200 0 hne

-- ----------------------------------------------------------------------------
-- Termination and stop conditions of the search loop (C3)
-- ----------------------------------------------------------------------------

lemma popMin_none_iff (l : List Entry) : popMin l = none ↔ l = [] := by
  cases l with
  | nil => simp [popMin]
  | cons e rest =>
    simp only [popMin]
    cases h : popMin rest with
    | none => simp
    | some p =>
      rcases p with ⟨m, r1⟩
      simp only
      split_ifs <;> simp

lemma popMin_length (l : List Entry) (e : Entry) (r : List Entry)
    (h : popMin l = some (e, r)) : l.length = r.length + 1 := by
  induction l generalizing e r with
  | nil => simp [popMin] at h
  | cons a rest ih =>
    simp only [popMin] at h
    cases h2 : popMin rest with
    | none =>
      rw [h2] at h
      simp only [Option.some.injEq, Prod.mk.injEq] at h
      obtain ⟨he, hr⟩ := h
      have hrest : rest = [] := (popMin_none_iff rest).mp h2
      subst hrest
      simp [← hr]
    | some p =>
      rcases p with ⟨m, r1⟩
      rw [h2] at h
      simp only at h
      split_ifs at h
      · simp only [Option.some.injEq, Prod.mk.injEq] at h
        obtain ⟨he, hr⟩ := h
        have := ih m r1 h2
        simp [← hr, this]
      · simp only [Option.some.injEq, Prod.mk.injEq] at h
        obtain ⟨he, hr⟩ := h
        simp [← hr]

lemma popMin_mem (l : List Entry) (e : Entry) (r : List Entry)
    (h : popMin l = some (e, r)) : e ∈ l ∧ ∀ x ∈ r, x ∈ l := by
  induction l generalizing e r with
  | nil => simp [popMin] at h
  | cons a rest ih =>
    simp only [popMin] at h
    cases h2 : popMin rest with
    | none =>
      rw [h2] at h
      simp only [Option.some.injEq, Prod.mk.injEq] at h
      obtain ⟨he, hr⟩ := h
      subst he
      constructor
      · exact List.mem_cons_self a rest
      · intro x hx
        rw [← hr] at hx
        simp at hx
    | some p =>
      rcases p with ⟨m, r1⟩
      rw [h2] at h
      simp only at h
      obtain ⟨hm, hr1⟩ := ih m r1 h2
      split_ifs at h
      · simp only [Option.some.injEq, Prod.mk.injEq] at h
        obtain ⟨he, hr⟩ := h
        subst he
        refine ⟨List.mem_cons_of_mem a hm, ?_⟩
        intro x hx
        rw [← hr] at hx
        rcases List.mem_cons.mp hx with hx | hx
        · subst hx
          exact List.mem_cons_self _ _
        · exact List.mem_cons_of_mem a (hr1 x hx)
      · simp only [Option.some.injEq, Prod.mk.injEq] at h
        obtain ⟨he, hr⟩ := h
        subst he
        refine ⟨List.mem_cons_self _ _, ?_⟩
        intro x hx
        rw [← hr] at hx
        exact List.mem_cons_of_mem a hx

lemma expandDir_came (env : SearchEnv) (cur : Node) (g : ℝ) (s : AState) (dir : ℝ × ℝ) :
    (expandDir env cur g s dir).came = s.came := by
  simp only [expandDir]
  repeat' split
  all_goals rfl

lemma expandDir_visited (env : SearchEnv) (cur : Node) (g : ℝ) (s : AState) (dir : ℝ × ℝ) :
    (expandDir env cur g s dir).visited = s.visited := by
  simp only [expandDir]
  repeat' split
  all_goals rfl

lemma expandDir_openq_len (env : SearchEnv) (cur : Node) (g : ℝ) (s : AState) (dir : ℝ × ℝ) :
    (expandDir env cur g s dir).openq.length ≤ s.openq.length + 1 := by
  simp only [expandDir]
  repeat' split
  all_goals simp

lemma foldl_expand_came (env : SearchEnv) (cur : Node) (g : ℝ) :
    ∀ (l : List (ℝ × ℝ)) (s : AState), (l.foldl (expandDir env cur g) s).came = s.came := by
  intro l
  induction l with
  | nil => intro s; rfl
  | cons d rest ih =>
    intro s
    rw [List.foldl_cons, ih, expandDir_came]

lemma foldl_expand_visited (env : SearchEnv) (cur : Node) (g : ℝ) :
    ∀ (l : List (ℝ × ℝ)) (s : AState), (l.foldl (expandDir env cur g) s).visited = s.visited := by
  intro l
  induction l with
  | nil => intro s; rfl
  | cons d rest ih =>
    intro s
    rw [List.foldl_cons, ih, expandDir_visited]

lemma foldl_expand_openq_len (env : SearchEnv) (cur : Node) (g : ℝ) :
    ∀ (l : List (ℝ × ℝ)) (s : AState),
      (l.foldl (expandDir env cur g) s).openq.length ≤ s.openq.length + l.length := by
  intro l
  induction l with
  | nil => intro s; simp
  | cons d rest ih =>
    intro s
    rw [List.foldl_cons]
    calc (rest.foldl (expandDir env cur g) (expandDir env cur g s d)).openq.length
        ≤ (expandDir env cur g s d).openq.length + rest.length := ih _
      _ ≤ s.openq.length + 1 + rest.length := by
          have := expandDir_openq_len env cur g s d
          omega
      _ = s.openq.length + (d :: rest).length := by simp; omega

lemma astarStep_inl_cases (env : SearchEnv) (s s1 : AState)
    (h : astarStep env s = Sum.inl s1) :
    s1.visited = s.visited + 1 ∧
      ((s1.came = s.came ∧ s1.openq.length + 1 = s.openq.length) ∨
       (s1.came.length = s.came.length + 1 ∧ s1.openq.length + 1 ≤ s.openq.length + 8 ∧
        (s1.visited : ℤ) ≤ env.max_nodes)) := by
  unfold astarStep at h
  cases hp : popMin s.openq with
  | none => rw [hp] at h; cases h
  | some p =>
    rcases p with ⟨e, rest⟩
    rw [hp] at h
    simp only at h
    have hlen := popMin_length _ _ _ hp
    by_cases hst : (alookup s.came e.2.2.1).isSome = true
    · rw [if_pos hst] at h
      cases h
      exact ⟨rfl, Or.inl ⟨rfl, by simpa using hlen.symm⟩⟩
    · rw [if_neg hst] at h
      by_cases hgoal : e.2.2.1 = env.goal
      · rw [if_pos hgoal] at h; cases h
      · rw [if_neg hgoal] at h
        by_cases hbud : ((s.visited + 1 : ℕ) : ℤ) > env.max_nodes
        · rw [if_pos hbud] at h; cases h
        · rw [if_neg hbud] at h
          cases h
          refine ⟨?_, Or.inr ⟨?_, ?_, ?_⟩⟩
          · rw [foldl_expand_visited]
          · rw [foldl_expand_came]
            simp
          · have hgrow := foldl_expand_openq_len env e.2.2.1 e.2.1 (dirs env.step)
              ⟨rest, (e.2.2.1, e.2.2.2) :: s.came, s.bestg, s.visited + 1⟩
            have hlen8 : (dirs env.step).length = 8 := by simp [dirs]
            rw [hlen8] at hgrow
            simp only at hgrow
            omega
          · rw [foldl_expand_visited]
            push_neg at hbud
            exact_mod_cast hbud

lemma budgetB_cast (mn : ℤ) : (budgetB mn : ℤ) = max 0 (mn + 1) := by
  unfold budgetB
  exact Int.toNat_of_nonneg (le_max_left _ _)

lemma astarStep_inl_measure (env : SearchEnv) (s s1 : AState)
    (hcv : s.came.length ≤ s.visited) (h : astarStep env s = Sum.inl s1) :
    measureA env s1 < measureA env s ∧ s1.came.length ≤ s1.visited := by
  obtain ⟨hv, hcases⟩ := astarStep_inl_cases env s s1 h
  rcases hcases with ⟨hc, ho⟩ | ⟨hc, ho, hb⟩
  · refine ⟨?_, ?_⟩
    · unfold measureA
      rw [hc]
      omega
    · have hcl : s1.came.length = s.came.length := by rw [hc]
      omega
  · have hcv1 : s1.came.length ≤ s1.visited := by omega
    refine ⟨?_, hcv1⟩
    have hBc := budgetB_cast env.max_nodes
    have hcb : s1.came.length < budgetB env.max_nodes := by
      have h1 : (s1.came.length : ℤ) ≤ env.max_nodes := le_trans (by exact_mod_cast hcv1) hb
      have h2 : (s1.came.length : ℤ) < max 0 (env.max_nodes + 1) := by
        rcases le_or_lt 0 (env.max_nodes + 1) with hle | hlt
        · rw [max_eq_right hle]; omega
        · omega
      omega
    unfold measureA
    have hm1 : min (budgetB env.max_nodes) s1.came.length = s1.came.length :=
      min_eq_right (le_of_lt hcb)
    have hm2 : min (budgetB env.max_nodes) s.came.length = s.came.length :=
      min_eq_right (by omega)
    rw [hm1, hm2]
    omega

lemma runA_total (env : SearchEnv) :
    ∀ (n : ℕ) (s : AState), measureA env s ≤ n → s.came.length ≤ s.visited →
      ∃ r, runA env n s = some r := by
  intro n
  induction n with
  | zero =>
    intro s hm hcv
    have ho : s.openq = [] := by
      unfold measureA at hm
      have : s.openq.length = 0 := by omega
      exact List.length_eq_zero.mp this
    refine ⟨(s, StopReason.exhausted), ?_⟩
    unfold runA astarStep
    rw [ho]
    rfl
  | succ n ih =>
    intro s hm hcv
    cases hstep : astarStep env s with
    | inr r => exact ⟨r, runA_of_inr env s r hstep (n + 1)⟩
    | inl s1 =>
      obtain ⟨hlt, hcv1⟩ := astarStep_inl_measure env s s1 hcv hstep
      obtain ⟨r, hr⟩ := ih s1 (by omega) hcv1
      refine ⟨r, ?_⟩
      rw [runA_of_inl env s s1 hstep n]
      exact hr

lemma astarStep_inr_reason (env : SearchEnv) (s s1 : AState) (reason : StopReason)
    (h : astarStep env s = Sum.inr (s1, reason)) :
    (alookup s1.came env.goal).isSome = true ∨ (s1.visited : ℤ) > env.max_nodes ∨
      s1.openq = [] := by
  unfold astarStep at h
  cases hp : popMin s.openq with
  | none =>
    rw [hp] at h
    simp only [Sum.inr.injEq, Prod.mk.injEq] at h
    obtain ⟨hs, _⟩ := h
    subst hs
    exact Or.inr (Or.inr ((popMin_none_iff _).mp hp))
  | some p =>
    rcases p with ⟨e, rest⟩
    rw [hp] at h
    simp only at h
    by_cases hst : (alookup s.came e.2.2.1).isSome = true
    · rw [if_pos hst] at h; cases h
    · rw [if_neg hst] at h
      by_cases hgoal : e.2.2.1 = env.goal
      · rw [if_pos hgoal] at h
        simp only [Sum.inr.injEq, Prod.mk.injEq] at h
        obtain ⟨hs, _⟩ := h
        subst hs
        left
        show (alookup ((e.2.2.1, e.2.2.2) :: s.came) env.goal).isSome = true
        unfold alookup
        rw [if_pos hgoal.symm]
        rfl
      · rw [if_neg hgoal] at h
        by_cases hbud : ((s.visited + 1 : ℕ) : ℤ) > env.max_nodes
        · rw [if_pos hbud] at h
          simp only [Sum.inr.injEq, Prod.mk.injEq] at h
          obtain ⟨hs, _⟩ := h
          subst hs
          exact Or.inr (Or.inl hbud)
        · rw [if_neg hbud] at h
          cases h

lemma runA_reason (env : SearchEnv) :
    ∀ (n : ℕ) (s s1 : AState) (reason : StopReason),
      runA env n s = some (s1, reason) →
      (alookup s1.came env.goal).isSome = true ∨ (s1.visited : ℤ) > env.max_nodes ∨
        s1.openq = [] := by
  intro n
  induction n with
  | zero =>
    intro s s1 reason h
    unfold runA at h
    cases hstep : astarStep env s with
    | inr r =>
      rw [hstep] at h
      rcases r with ⟨a, b⟩
      simp only [Option.some.injEq, Prod.mk.injEq] at h
      obtain ⟨rfl, rfl⟩ := h
      exact astarStep_inr_reason env s a b hstep
    | inl s2 =>
      rw [hstep] at h
      simp at h
  | succ n ih =>
    intro s s1 reason h
    cases hstep : astarStep env s with
    | inr r =>
      rw [runA_of_inr env s r hstep (n + 1)] at h
      rcases r with ⟨a, b⟩
      simp only [Option.some.injEq, Prod.mk.injEq] at h
      obtain ⟨rfl, rfl⟩ := h
      exact astarStep_inr_reason env s a b hstep
    | inl s2 =>
      rw [runA_of_inl env s s2 hstep n] at h
      exact ih s2 s1 reason h

/-- C3 amended.  The loop always terminates within the computed fuel, and
when it stops the final state satisfies: the goal has been finalized, or the
pop counter `visited` (which counts every pop, stale re-pops included — not
the number of finalized nodes) exceeds `max_nodes`, or the open queue is
empty. -/
theorem loop_terminates_with_stop_reasons (env : SearchEnv) (start : Node) :
    ∃ s1 reason, runA env (astarFuel env) (initState env start) = some (s1, reason) ∧
      ((alookup s1.came env.goal).isSome = true ∨ (s1.visited : ℤ) > env.max_nodes ∨
        s1.openq = []) := by
  have h0 : measureA env (initState env start) ≤ astarFuel env := by
    unfold measureA astarFuel initState
    simp
  obtain ⟨⟨s1, reason⟩, hr⟩ :=
    runA_total env (astarFuel env) (initState env start) h0 (by simp [initState])
  exact ⟨s1, reason, hr, runA_reason env _ _ _ _ hr⟩

-- ----------------------------------------------------------------------------
-- Equator distances and the facts driving the concrete run
-- ----------------------------------------------------------------------------

lemma havNm_equator (p q : ℝ) :
    havNm 0 p 0 q = R_KM * (2 * arcsin |sin ((q - p) * π / 360)|) * KM_TO_NM := by
  unfold havNm haversine_km havA rad
  rw [show (0:ℝ) * π / 180 = 0 from by ring]
  rw [show (q * π / 180 - p * π / 180) / 2 = (q - p) * π / 360 from by ring]
  simp [Real.sqrt_sq_eq_abs]

lemma arcsin_abs_sin {x : ℝ} (h0 : 0 ≤ x) (h1 : x ≤ π / 2) : arcsin |sin x| = x := by
  rw [abs_of_nonneg (Real.sin_nonneg_of_nonneg_of_le_pi h0 (by linarith [Real.pi_pos]))]
  exact Real.arcsin_sin (by linarith [Real.pi_pos]) h1

lemma havNm_eq_qq (p q : ℝ) (h : q - p = 90 ∨ q - p = -90) : havNm 0 p 0 q = qq := by
  rw [havNm_equator]
  have hval : arcsin |sin ((q - p) * π / 360)| = π / 4 := by
    rcases h with h | h <;> rw [h]
    · rw [show (90:ℝ) * π / 360 = π / 4 from by ring]
      exact arcsin_abs_sin (by positivity) (by linarith [Real.pi_pos])
    · rw [show (-90:ℝ) * π / 360 = -(π / 4) from by ring, Real.sin_neg, abs_neg]
      exact arcsin_abs_sin (by positivity) (by linarith [Real.pi_pos])
  rw [hval]
  unfold qq
  ring

lemma havNm_eq_2qq (p q : ℝ) (h : q - p = 180 ∨ q - p = -180) : havNm 0 p 0 q = 2 * qq := by
  rw [havNm_equator]
  have hval : arcsin |sin ((q - p) * π / 360)| = π / 2 := by
    rcases h with h | h <;> rw [h]
    · rw [show (180:ℝ) * π / 360 = π / 2 from by ring, Real.sin_pi_div_two]
      simp [Real.arcsin_one]
    · rw [show (-180:ℝ) * π / 360 = -(π / 2) from by ring, Real.sin_neg, abs_neg,
        Real.sin_pi_div_two]
      simp [Real.arcsin_one]
  rw [hval]
  unfold qq
  ring

lemma havNm_eq_qq_270 (p q : ℝ) (h : q - p = 270) : havNm 0 p 0 q = qq := by
  rw [havNm_equator, h, show (270:ℝ) * π / 360 = π - π / 4 from by ring, Real.sin_pi_sub]
  rw [arcsin_abs_sin (by positivity) (by linarith [Real.pi_pos])]
  unfold qq
  ring

lemma havNm_eq_zero_360 (p q : ℝ) (h : q - p = 360) : havNm 0 p 0 q = 0 := by
  rw [havNm_equator, h, show (360:ℝ) * π / 360 = π from by ring, Real.sin_pi]
  simp

lemma qq_pos : 0 < qq := by
  unfold qq R_KM KM_TO_NM
  positivity

lemma qq_gt_one : 1 < qq := by
  have := Real.pi_gt_three
  unfold qq R_KM KM_TO_NM
  nlinarith

lemma qq_lt_10000 : qq < 10000 := by
  have := Real.pi_lt_four
  unfold qq R_KM KM_TO_NM
  nlinarith

lemma cex_not_inside (lat lon : ℝ) (h : ¬ havNm lat lon 0 0 ≤ 1) :
    ¬ inside_hazard lat lon [⟨0, 0, 1⟩] := by
  rintro ⟨c, hm, hle⟩
  rw [List.mem_singleton] at hm
  subst hm
  exact h hle

lemma cex_inside_origin : inside_hazard 0 0 [⟨0, 0, 1⟩] := by
  refine ⟨⟨0, 0, 1⟩, List.mem_singleton.mpr rfl, ?_⟩
  show haversine_km 0 0 0 0 * KM_TO_NM ≤ 1
  rw [haversine_self]
  norm_num [KM_TO_NM]

lemma cex_cost_SA : edge_cost [] [⟨0, 0, 1⟩] (-20000) 0 (0, 0) (0, 90) = qq := by
  simp only [edge_cost]
  rw [piracy_penalty_nonpos_weight [] _ _ _ le_rfl,
    if_neg (cex_not_inside 0 90
      (by rw [havNm_eq_qq 90 0 (Or.inr (by norm_num))]; linarith [qq_gt_one])),
    havNm_eq_qq 0 90 (Or.inl (by norm_num))]
  ring

lemma cex_cost_SB : edge_cost [] [⟨0, 0, 1⟩] (-20000) 0 (0, 0) (0, -90) = qq := by
  simp only [edge_cost]
  rw [piracy_penalty_nonpos_weight [] _ _ _ le_rfl,
    if_neg (cex_not_inside 0 (-90)
      (by rw [havNm_eq_qq (-90) 0 (Or.inl (by norm_num))]; linarith [qq_gt_one])),
    havNm_eq_qq 0 (-90) (Or.inr (by norm_num))]
  ring

lemma cex_cost_BS : edge_cost [] [⟨0, 0, 1⟩] (-20000) 0 (0, -90) (0, 0) = qq - 20000 := by
  simp only [edge_cost]
  rw [piracy_penalty_nonpos_weight [] _ _ _ le_rfl,
    if_pos cex_inside_origin,
    havNm_eq_qq (-90) 0 (Or.inl (by norm_num))]
  ring

lemma cex_cost_BD : edge_cost [] [⟨0, 0, 1⟩] (-20000) 0 (0, -90) (0, -180) = qq := by
  simp only [edge_cost]
  rw [piracy_penalty_nonpos_weight [] _ _ _ le_rfl,
    if_neg (cex_not_inside 0 (-180)
      (by rw [havNm_eq_2qq (-180) 0 (Or.inl (by norm_num))]; linarith [qq_gt_one])),
    havNm_eq_qq (-90) (-180) (Or.inr (by norm_num))]
  ring

lemma cex_hfun_S : hfun cexEnv (0, 0) = 2 * qq := by
  simp only [hfun, cexEnv]
  exact havNm_eq_2qq 0 180 (Or.inl (by norm_num))

lemma cex_hfun_A : hfun cexEnv (0, 90) = qq := by
  simp only [hfun, cexEnv]
  exact havNm_eq_qq 90 180 (Or.inl (by norm_num))

lemma cex_hfun_B : hfun cexEnv (0, -90) = qq := by
  simp only [hfun, cexEnv]
  exact havNm_eq_qq_270 (-90) 180 (by norm_num)

lemma cex_hfun_D : hfun cexEnv (0, -180) = 0 := by
  simp only [hfun, cexEnv]
  exact havNm_eq_zero_360 (-180) 180 (by norm_num)

lemma cex_wrap_90 : wrapLon (90:ℝ) = 90 := by
  simp only [wrapLon]
  norm_num

lemma cex_wrap_m90 : wrapLon (-90:ℝ) = -90 := by
  simp only [wrapLon]
  norm_num

lemma cex_cost_SA0 : edge_cost [] [⟨0, 0, 1⟩] (-20000) 0 0 (0, 90) = qq := cex_cost_SA

lemma cex_cost_SB0 : edge_cost [] [⟨0, 0, 1⟩] (-20000) 0 0 (0, -90) = qq := cex_cost_SB

lemma cex_cost_BS0 : edge_cost [] [⟨0, 0, 1⟩] (-20000) 0 (0, -90) 0 = qq - 20000 :=
  cex_cost_BS

lemma cex_hfun_S0 :
    hfun ⟨[], [⟨0, 0, 1⟩], -20000, 0, 90, (0, 180), 3⟩ 0 = 2 * qq := cex_hfun_S

lemma cex_hfun_A0 :
    hfun ⟨[], [⟨0, 0, 1⟩], -20000, 0, 90, (0, 180), 3⟩ (0, 90) = qq := cex_hfun_A

lemma cex_hfun_B0 :
    hfun ⟨[], [⟨0, 0, 1⟩], -20000, 0, 90, (0, 180), 3⟩ (0, -90) = qq := cex_hfun_B

lemma cex_hfun_D0 :
    hfun ⟨[], [⟨0, 0, 1⟩], -20000, 0, 90, (0, 180), 3⟩ (0, -180) = 0 := cex_hfun_D

lemma cex_step1 : astarStep cexEnv (initState cexEnv (0, 0)) = Sum.inl cexS1 := by
  norm_num [astarStep, initState, popMin, alookup, expandDir, dirs, cexEnv, cexS1,
    Prod.ext_iff, cex_wrap_90, cex_wrap_m90]
  simp only [cex_cost_SA0, cex_cost_SB0, cex_hfun_A0, cex_hfun_B0, two_mul, and_self]

lemma cex_wrap_0 : wrapLon (0:ℝ) = 0 := by
  simp only [wrapLon]
  norm_num

lemma cex_wrap_m180 : wrapLon (-180:ℝ) = -180 := by
  simp only [wrapLon]
  norm_num

lemma cex_lt_BA :
    entryLt (2 * qq, qq, (0, -90), some 0) (2 * qq, qq, (0, 90), some 0) := by
  unfold entryLt nodeLt
  exact Or.inr ⟨rfl, Or.inr ⟨rfl, Or.inr ⟨rfl, by norm_num⟩⟩⟩

lemma cex_ng_neg : qq + (qq - 20000) < 0 := by
  linarith [qq_lt_10000]

lemma cex_cost_BD0 : edge_cost [] [⟨0, 0, 1⟩] (-20000) 0 (0, -90) (0, -180) = qq :=
  cex_cost_BD

lemma cex_step2 : astarStep cexEnv cexS1 = Sum.inl cexS2 := by
  norm_num [astarStep, cexS1, cexS2, popMin, alookup, expandDir, dirs, cexEnv,
    Prod.ext_iff, cex_wrap_0, cex_wrap_m180, cex_wrap_90, cex_wrap_m90, cex_lt_BA,
    cex_cost_BS0, cex_cost_BD0, cex_hfun_S0, cex_hfun_D0, cex_ng_neg]
  ring_nf
  norm_num

lemma cex_not_lt_DS :
    ¬ entryLt (2 * qq, 2 * qq, (0, -180), some (0, -90))
        (4 * qq - 20000, 2 * qq - 20000, 0, some (0, -90)) := by
  simp only [entryLt, nodeLt]
  rintro (h | ⟨h, _⟩) <;> linarith [qq_lt_10000]

lemma cex_lt_SA :
    entryLt (4 * qq - 20000, 2 * qq - 20000, 0, some (0, -90))
      (2 * qq, qq, (0, 90), some 0) := by
  simp only [entryLt, nodeLt]
  exact Or.inl (by linarith [qq_lt_10000])

lemma cex_step3 : astarStep cexEnv cexS2 = Sum.inl cexS3 := by
  norm_num [astarStep, cexS2, cexS3, popMin, alookup, cexEnv, Prod.ext_iff,
    cex_not_lt_DS, cex_lt_SA]

lemma cex_not_lt_DA :
    ¬ entryLt (2 * qq, 2 * qq, (0, -180), some (0, -90)) (2 * qq, qq, (0, 90), some 0) := by
  simp only [entryLt, nodeLt]
  rintro (h | ⟨h1, h | ⟨h2, _⟩⟩)
  · exact lt_irrefl _ h
  · linarith [qq_pos]
  · linarith [qq_pos]

lemma cex_step4 : astarStep cexEnv cexS3 = Sum.inr (cexFinal, StopReason.budget) := by
  norm_num [astarStep, cexS3, cexS2, cexFinal, popMin, alookup, cexEnv, Prod.ext_iff,
    cex_not_lt_DA]

lemma cex_run :
    runA cexEnv 37 (initState cexEnv (0, 0)) = some (cexFinal, StopReason.budget) := by
  rw [show (37:ℕ) = 36 + 1 from rfl, runA_of_inl _ _ _ cex_step1 36]
  rw [show (36:ℕ) = 35 + 1 from rfl, runA_of_inl _ _ _ cex_step2 35]
  rw [show (35:ℕ) = 34 + 1 from rfl, runA_of_inl _ _ _ cex_step3 34]
  exact runA_of_inr _ _ _ cex_step4 34

/-- C3 counterexample.  On a concrete request (equator grid, step 90°, a
hazard of radius 1 nm on the origin with penalty `-20000`, budget
`max_nodes = 3`) the loop performs a stale re-pop and then stops on the
budget check although none of the claimed stop conditions holds: only 3
nodes are finalized (not more than `max_nodes`), the goal was never
finalized, and the open queue is not empty. -/
theorem loop_stops_without_claimed_conditions :
    runA cexEnv (astarFuel cexEnv) (initState cexEnv (0, 0)) =
      some (cexFinal, StopReason.budget) ∧
    cexFinal.came.length = 3 ∧ ¬((cexFinal.came.length : ℤ) > cexEnv.max_nodes) ∧
    alookup cexFinal.came cexEnv.goal = none ∧ cexFinal.openq ≠ [] := by
  have hfuel : astarFuel cexEnv = 37 := by
    norm_num [astarFuel, budgetB, cexEnv]
    rfl
  refine ⟨hfuel ▸ cex_run, by simp [cexFinal], ?_, ?_, by simp [cexFinal]⟩
  · norm_num [cexFinal, cexEnv]
  · norm_num [alookup, cexFinal, cexEnv, Prod.ext_iff]

-- ----------------------------------------------------------------------------
-- The haversine distance as a central angle, and its triangle inequality
-- ----------------------------------------------------------------------------

lemma dot3_self_uvec (lat lon : ℝ) : dot3 (uvec lat lon) (uvec lat lon) = 1 := by
  simp only [uvec, dot3]
  have h1 := Real.sin_sq_add_cos_sq (rad lat)
  have h2 := Real.sin_sq_add_cos_sq (rad lon)
  nlinarith [h1, h2]

lemma dot3_uvec_eq (a b c d : ℝ) :
    dot3 (uvec a b) (uvec c d) =
      sin (rad a) * sin (rad c) + cos (rad a) * cos (rad c) * cos (rad d - rad b) := by
  simp only [uvec, dot3, Real.cos_sub]
  ring

lemma sin_half_sq (t : ℝ) : sin (t / 2) ^ 2 = (1 - cos t) / 2 := by
  have h1 := Real.cos_two_mul (t / 2)
  have h2 := Real.sin_sq_add_cos_sq (t / 2)
  have h3 : (2:ℝ) * (t / 2) = t := by ring
  rw [h3] at h1
  linarith

lemma havA_eq_dot (a b c d : ℝ) :
    havA a b c d = (1 - dot3 (uvec a b) (uvec c d)) / 2 := by
  rw [dot3_uvec_eq]
  unfold havA
  rw [sin_half_sq, sin_half_sq, Real.cos_sub]
  ring

lemma dot3_le_one (u v : ℝ × ℝ × ℝ) (hu : dot3 u u = 1) (hv : dot3 v v = 1) :
    -1 ≤ dot3 u v ∧ dot3 u v ≤ 1 := by
  simp only [dot3] at *
  constructor
  · nlinarith [sq_nonneg (u.1 + v.1), sq_nonneg (u.2.1 + v.2.1), sq_nonneg (u.2.2 + v.2.2)]
  · nlinarith [sq_nonneg (u.1 - v.1), sq_nonneg (u.2.1 - v.2.1), sq_nonneg (u.2.2 - v.2.2)]

lemma cos_double_sin_sq (y : ℝ) : cos (2 * y) = 1 - 2 * sin y ^ 2 := by
  have h1 := Real.cos_two_mul y
  have h2 := Real.sin_sq_add_cos_sq y
  linarith

lemma haversine_eq_arccos (a b c d : ℝ) :
    haversine_km a b c d = R_KM * arccos (dot3 (uvec a b) (uvec c d)) := by
  unfold haversine_km
  obtain ⟨h1, h2⟩ := dot3_le_one _ _ (dot3_self_uvec a b) (dot3_self_uvec c d)
  rw [havA_eq_dot]
  set t := dot3 (uvec a b) (uvec c d) with ht
  have ha0 : (0:ℝ) ≤ (1 - t) / 2 := by linarith
  have ha1 : (1 - t) / 2 ≤ 1 := by linarith
  have hs1 : Real.sqrt ((1 - t) / 2) ≤ 1 := Real.sqrt_le_one.mpr ha1
  have hcos : cos (2 * arcsin (Real.sqrt ((1 - t) / 2))) = t := by
    rw [cos_double_sin_sq, Real.sin_arcsin (by linarith [Real.sqrt_nonneg ((1 - t) / 2)]) hs1,
      Real.sq_sqrt ha0]
    ring
  have hr0 : 0 ≤ 2 * arcsin (Real.sqrt ((1 - t) / 2)) := by
    have := Real.arcsin_nonneg.mpr (Real.sqrt_nonneg ((1 - t) / 2))
    linarith
  have hr1 : 2 * arcsin (Real.sqrt ((1 - t) / 2)) ≤ π := by
    have := Real.arcsin_le_pi_div_two (Real.sqrt ((1 - t) / 2))
    linarith
  have harc : arccos (cos (2 * arcsin (Real.sqrt ((1 - t) / 2)))) =
      2 * arcsin (Real.sqrt ((1 - t) / 2)) := Real.arccos_cos hr0 hr1
  rw [← harc, hcos]

lemma gram_ineq (u v w : ℝ × ℝ × ℝ) (hu : dot3 u u = 1) (hv : dot3 v v = 1)
    (hw : dot3 w w = 1) :
    (dot3 u w - dot3 u v * dot3 v w) ^ 2 ≤ (1 - dot3 u v ^ 2) * (1 - dot3 v w ^ 2) := by
  have key : (1 - dot3 u v ^ 2) * (1 - dot3 v w ^ 2) - (dot3 u w - dot3 u v * dot3 v w) ^ 2 =
      dot3 u u * (dot3 v v * dot3 w w) + 2 * (dot3 u v * (dot3 v w * dot3 u w)) -
        dot3 u v ^ 2 * dot3 w w - dot3 v w ^ 2 * dot3 u u - dot3 u w ^ 2 * dot3 v v := by
    rw [hu, hv, hw]
    ring
  have key2 : dot3 u u * (dot3 v v * dot3 w w) + 2 * (dot3 u v * (dot3 v w * dot3 u w)) -
      dot3 u v ^ 2 * dot3 w w - dot3 v w ^ 2 * dot3 u u - dot3 u w ^ 2 * dot3 v v =
      (u.1 * (v.2.1 * w.2.2 - v.2.2 * w.2.1) - u.2.1 * (v.1 * w.2.2 - v.2.2 * w.1) +
        u.2.2 * (v.1 * w.2.1 - v.2.1 * w.1)) ^ 2 := by
    simp only [dot3]
    ring
  have := sq_nonneg (u.1 * (v.2.1 * w.2.2 - v.2.2 * w.2.1) -
    u.2.1 * (v.1 * w.2.2 - v.2.2 * w.1) + u.2.2 * (v.1 * w.2.1 - v.2.1 * w.1))
  linarith [key.trans key2]

lemma arccos_antitone {x y : ℝ} (h : x ≤ y) : arccos y ≤ arccos x := by
  rw [Real.arccos_eq_pi_div_two_sub_arcsin, Real.arccos_eq_pi_div_two_sub_arcsin]
  have := Real.monotone_arcsin h
  linarith

lemma arccos_dot3_triangle (u v w : ℝ × ℝ × ℝ) (hu : dot3 u u = 1) (hv : dot3 v v = 1)
    (hw : dot3 w w = 1) :
    arccos (dot3 u w) ≤ arccos (dot3 u v) + arccos (dot3 v w) := by
  obtain ⟨hc1a, hc1b⟩ := dot3_le_one u v hu hv
  obtain ⟨hc2a, hc2b⟩ := dot3_le_one v w hv hw
  by_cases hcase : π ≤ arccos (dot3 u v) + arccos (dot3 v w)
  · exact le_trans (Real.arccos_le_pi _) hcase
  · push_neg at hcase
    have hgram := gram_ineq u v w hu hv hw
    have habs : |dot3 u w - dot3 u v * dot3 v w| ≤
        Real.sqrt ((1 - dot3 u v ^ 2) * (1 - dot3 v w ^ 2)) := by
      rw [← Real.sqrt_sq_eq_abs]
      exact Real.sqrt_le_sqrt hgram
    have hkey : dot3 u v * dot3 v w -
        Real.sqrt ((1 - dot3 u v ^ 2) * (1 - dot3 v w ^ 2)) ≤ dot3 u w := by
      have := (abs_le.mp habs).1
      linarith
    have hcos : cos (arccos (dot3 u v) + arccos (dot3 v w)) ≤ dot3 u w := by
      rw [Real.cos_add, Real.cos_arccos hc1a hc1b, Real.cos_arccos hc2a hc2b,
        Real.sin_arccos, Real.sin_arccos,
        ← Real.sqrt_mul (by nlinarith : (0:ℝ) ≤ 1 - dot3 u v ^ 2)]
      linarith
    calc arccos (dot3 u w) ≤ arccos (cos (arccos (dot3 u v) + arccos (dot3 v w))) :=
          arccos_antitone hcos
      _ = arccos (dot3 u v) + arccos (dot3 v w) := by
          refine Real.arccos_cos ?_ (le_of_lt hcase)
          have := Real.arccos_nonneg (dot3 u v)
          have := Real.arccos_nonneg (dot3 v w)
          linarith

lemma havNm_triangle (a b c d e f : ℝ) :
    havNm a b e f ≤ havNm a b c d + havNm c d e f := by
  unfold havNm
  rw [haversine_eq_arccos, haversine_eq_arccos, haversine_eq_arccos]
  have htri := arccos_dot3_triangle (uvec a b) (uvec c d) (uvec e f)
    (dot3_self_uvec a b) (dot3_self_uvec c d) (dot3_self_uvec e f)
  unfold R_KM KM_TO_NM
  nlinarith [htri]

lemma havNm_self (a b : ℝ) : havNm a b a b = 0 := by
  unfold havNm
  rw [haversine_self]
  ring

lemma pathDistNm_ge : ∀ (l : List Node) (x : Node),
    havNm x.1 x.2 ((x :: l).getLast (List.cons_ne_nil x l)).1
      ((x :: l).getLast (List.cons_ne_nil x l)).2 ≤ pathDistNm (x :: l) := by
  intro l
  induction l with
  | nil =>
    intro x
    simp only [List.getLast_singleton, pathDistNm]
    rw [havNm_self]
  | cons y l ih =>
    intro x
    have hlast : (x :: y :: l).getLast (List.cons_ne_nil x (y :: l)) =
        (y :: l).getLast (List.cons_ne_nil y l) := List.getLast_cons (List.cons_ne_nil y l)
    rw [hlast]
    have htr := havNm_triangle x.1 x.2 y.1 y.2
      ((y :: l).getLast (List.cons_ne_nil y l)).1 ((y :: l).getLast (List.cons_ne_nil y l)).2
    have hstep := ih y
    show havNm x.1 x.2 _ _ ≤ havNm x.1 x.2 y.1 y.2 + pathDistNm (y :: l)
    linarith

lemma alookup_mem_keys (came : List (Node × Option Node)) (n : Node) :
    (alookup came n).isSome = true ↔ n ∈ keysOf came := by
  induction came with
  | nil => simp [alookup, keysOf]
  | cons e rest ih =>
    rcases e with ⟨k, v⟩
    by_cases h : n = k
    · simp [alookup, keysOf, h]
    · simp only [alookup, keysOf, List.map_cons, List.mem_cons]
      rw [if_neg h]
      simp only [keysOf] at ih
      simp [h, ih]

lemma WFcame_suffix (start : Node) :
    ∀ (came suffix : List (Node × Option Node)), suffix <:+ came →
      WFcame start came → WFcame start suffix := by
  intro came
  induction came with
  | nil =>
    intro suffix h _
    rw [List.suffix_nil.mp h]
    trivial
  | cons e rest ih =>
    intro suffix h hwf
    rcases List.suffix_cons_iff.mp h with h1 | h1
    · rw [h1]
      exact hwf
    · rcases e with ⟨n, p⟩
      exact ih suffix h1 hwf.2.2

lemma alookup_suffix_head (start : Node) :
    ∀ (came : List (Node × Option Node)), WFcame start came →
      ∀ (n : Node) (p : Option Node) (rest : List (Node × Option Node)),
        ((n, p) :: rest) <:+ came → alookup came n = some p := by
  intro came
  induction came with
  | nil =>
    intro _ n p rest h
    have := List.suffix_nil.mp h
    simp at this
  | cons e came1 ih =>
    rcases e with ⟨m, pm⟩
    intro hwf n p rest h
    rcases List.suffix_cons_iff.mp h with h1 | h1
    · injection h1 with hhead htail
      rw [Prod.mk.injEq] at hhead
      obtain ⟨hn, hp⟩ := hhead
      subst hn
      subst hp
      show alookup ((n, p) :: came1) n = some p
      unfold alookup
      rw [if_pos rfl]
    · have hnm : n ≠ m := by
        intro hEq
        have hmem : n ∈ keysOf came1 := by
          have : (n, p) ∈ came1 := h1.subset (List.mem_cons_self _ _)
          exact List.mem_map_of_mem (fun x => x.1) this
        exact hwf.2.1 (hEq ▸ hmem)
      show alookup ((m, pm) :: came1) n = some p
      unfold alookup
      rw [if_neg hnm]
      exact ih hwf.2.2 n p rest h1

lemma mem_keys_suffix :
    ∀ (l : List (Node × Option Node)) (n : Node), n ∈ keysOf l →
      ∃ p rest, ((n, p) :: rest) <:+ l := by
  intro l
  induction l with
  | nil => simp [keysOf]
  | cons e l1 ih =>
    rcases e with ⟨m, pm⟩
    intro n hn
    simp only [keysOf, List.map_cons, List.mem_cons] at hn
    rcases hn with hn | hn
    · exact ⟨pm, l1, by rw [hn]⟩
    · obtain ⟨p, rest, hsuf⟩ := ih n hn
      exact ⟨p, rest, hsuf.trans (List.suffix_cons _ _)⟩

lemma chain_shape (came : List (Node × Option Node)) (fuel : ℕ) (n : Node) :
    chain came fuel n = [n] ∨ ∃ p f1, fuel = f1 + 1 ∧ alookup came n = some (some p) ∧
      chain came fuel n = n :: chain came f1 p := by
  cases fuel with
  | zero => exact Or.inl rfl
  | succ f =>
    cases h : alookup came n with
    | none =>
      left
      simp only [chain, h]
    | some p =>
      cases p with
      | none =>
        left
        simp only [chain, h]
      | some q =>
        right
        exact ⟨q, f, rfl, rfl, by simp only [chain, h]⟩

lemma chain_head (came : List (Node × Option Node)) (fuel : ℕ) (n : Node) :
    ∃ l, chain came fuel n = n :: l := by
  rcases chain_shape came fuel n with h | ⟨p, f1, _, _, h⟩
  · exact ⟨[], h⟩
  · exact ⟨chain came f1 p, h⟩

lemma chain_getLast_start (start : Node) (came : List (Node × Option Node))
    (hwf : WFcame start came) :
    ∀ (k : ℕ) (n : Node) (p : Option Node) (rest : List (Node × Option Node)),
      ((n, p) :: rest) <:+ came → ((n, p) :: rest).length ≤ k →
      ∀ fuel, rest.length ≤ fuel →
        (chain came fuel n).getLast? = some start := by
  intro k
  induction k with
  | zero =>
    intro n p rest hsuf hlen
    simp at hlen
  | succ k ih =>
    intro n p rest hsuf hlen fuel hfuel
    have hlook : alookup came n = some p := alookup_suffix_head start came hwf n p rest hsuf
    have hwfs : WFcame start ((n, p) :: rest) := WFcame_suffix start came _ hsuf hwf
    cases p with
    | none =>
      have hstart : n = start := hwfs.1
      cases fuel with
      | zero => simp [chain, hstart]
      | succ f =>
        unfold chain
        rw [hlook]
        simp [hstart]
    | some q =>
      have hq : q ∈ keysOf rest := hwfs.1
      obtain ⟨p2, rest2, hsuf2⟩ := mem_keys_suffix rest q hq
      have hlen2 : ((q, p2) :: rest2).length ≤ rest.length := hsuf2.length_le
      simp only [List.length_cons] at hlen2
      have hrest1 : 1 ≤ rest.length := by
        rcases rest with _ | ⟨e, r⟩
        · simp [keysOf] at hq
        · simp
      cases fuel with
      | zero => omega
      | succ f =>
        unfold chain
        rw [hlook]
        simp only
        have hsuf3 : ((q, p2) :: rest2) <:+ came :=
          (hsuf2.trans (List.suffix_cons (n, some q) rest)).trans hsuf
        have htail := ih q p2 rest2 hsuf3
          (by simp only [List.length_cons] at hlen ⊢; omega) f (by omega)
        obtain ⟨l, hl⟩ := chain_head came f q
        rw [hl] at htail ⊢
        rw [List.getLast?_cons_cons]
        exact htail

lemma keysOf_cons (n : Node) (p : Option Node) (rest : List (Node × Option Node)) :
    keysOf ((n, p) :: rest) = n :: keysOf rest := rfl

lemma expandDir_openq_parent (env : SearchEnv) (cur : Node) (g : ℝ) (s : AState)
    (dir : ℝ × ℝ) :
    ∀ e ∈ (expandDir env cur g s dir).openq, e ∈ s.openq ∨ e.2.2.2 = some cur := by
  intro e he
  unfold expandDir at he
  by_cases hclip : cur.1 + dir.1 < -89.5 ∨ cur.1 + dir.1 > 89.5
  · rw [if_pos hclip] at he
    exact Or.inl he
  · rw [if_neg hclip] at he
    rcases hmatch : alookup s.bestg (cur.1 + dir.1, wrapLon (cur.2 + dir.2)) with _ | bg
    · simp only [hmatch, List.mem_append, List.mem_singleton] at he
      rcases he with he | he
      · exact Or.inl he
      · subst he
        exact Or.inr rfl
    · simp only [hmatch] at he
      split_ifs at he
      · simp only [List.mem_append, List.mem_singleton] at he
        rcases he with he | he
        · exact Or.inl he
        · subst he
          exact Or.inr rfl
      · exact Or.inl he

lemma foldl_expand_openq_parent (env : SearchEnv) (cur : Node) (g : ℝ) :
    ∀ (l : List (ℝ × ℝ)) (s : AState),
      ∀ e ∈ (l.foldl (expandDir env cur g) s).openq, e ∈ s.openq ∨ e.2.2.2 = some cur := by
  intro l
  induction l with
  | nil => intro s e he; exact Or.inl he
  | cons d rest ih =>
    intro s e he
    rw [List.foldl_cons] at he
    rcases ih (expandDir env cur g s d) e he with h | h
    · exact expandDir_openq_parent env cur g s d e h
    · exact Or.inr h

lemma astarStep_pres (env : SearchEnv) (start : Node) (s : AState)
    (hO : OpenInv start s.came s.openq) (hW : WFcame start s.came) :
    (∀ s1, astarStep env s = Sum.inl s1 →
      OpenInv start s1.came s1.openq ∧ WFcame start s1.came) ∧
    (∀ s1 r, astarStep env s = Sum.inr (s1, r) → WFcame start s1.came) := by
  cases hp : popMin s.openq with
  | none =>
    constructor
    · intro s1 h
      unfold astarStep at h
      rw [hp] at h
      cases h
    · intro s1 r h
      unfold astarStep at h
      rw [hp] at h
      simp only [Sum.inr.injEq, Prod.mk.injEq] at h
      obtain ⟨hs, _⟩ := h
      subst hs
      exact hW
  | some p =>
    rcases p with ⟨e, rest⟩
    obtain ⟨hemem, hsub⟩ := popMin_mem _ _ _ hp
    have hWnew : ¬ (alookup s.came e.2.2.1).isSome = true → WFcame start ((e.2.2.1, e.2.2.2) :: s.came) := by
      intro hst
      show (match e.2.2.2 with
            | none => e.2.2.1 = start
            | some q => q ∈ keysOf s.came) ∧ e.2.2.1 ∉ keysOf s.came ∧ WFcame start s.came
      refine ⟨?_, ?_, hW⟩
      · obtain ⟨h1, h2⟩ := hO e hemem
        cases hpar : e.2.2.2 with
        | none => exact h1 hpar
        | some q => exact h2 q hpar
      · intro hmem
        exact hst ((alookup_mem_keys s.came e.2.2.1).mpr hmem)
    constructor
    · intro s1 h
      unfold astarStep at h
      rw [hp] at h
      simp only at h
      by_cases hst : (alookup s.came e.2.2.1).isSome = true
      · rw [if_pos hst] at h
        cases h
        refine ⟨?_, hW⟩
        intro e2 he2
        exact hO e2 (hsub e2 he2)
      · rw [if_neg hst] at h
        by_cases hgoal : e.2.2.1 = env.goal
        · rw [if_pos hgoal] at h
          cases h
        · rw [if_neg hgoal] at h
          by_cases hbud : ((s.visited + 1 : ℕ) : ℤ) > env.max_nodes
          · rw [if_pos hbud] at h
            cases h
          · rw [if_neg hbud] at h
            cases h
            rw [foldl_expand_came]
            simp only
            refine ⟨?_, hWnew hst⟩
            intro e2 he2
            rcases foldl_expand_openq_parent env e.2.2.1 e.2.1 (dirs env.step) _ e2 he2
              with h2 | h2
            · obtain ⟨h3, h4⟩ := hO e2 (hsub e2 h2)
              refine ⟨h3, ?_⟩
              intro q hq
              rw [keysOf_cons]
              exact List.mem_cons_of_mem _ (h4 q hq)
            · constructor
              · intro hnone
                rw [hnone] at h2
                cases h2
              · intro q hq
                rw [h2] at hq
                injection hq with hq2
                rw [keysOf_cons, ← hq2]
                exact List.mem_cons_self _ _
    · intro s1 r h
      unfold astarStep at h
      rw [hp] at h
      simp only at h
      by_cases hst : (alookup s.came e.2.2.1).isSome = true
      · rw [if_pos hst] at h
        cases h
      · rw [if_neg hst] at h
        by_cases hgoal : e.2.2.1 = env.goal
        · rw [if_pos hgoal] at h
          simp only [Sum.inr.injEq, Prod.mk.injEq] at h
          obtain ⟨hs, _⟩ := h
          subst hs
          exact hWnew hst
        · rw [if_neg hgoal] at h
          by_cases hbud : ((s.visited + 1 : ℕ) : ℤ) > env.max_nodes
          · rw [if_pos hbud] at h
            simp only [Sum.inr.injEq, Prod.mk.injEq] at h
            obtain ⟨hs, _⟩ := h
            subst hs
            exact hWnew hst
          · rw [if_neg hbud] at h
            cases h

lemma runA_wf (env : SearchEnv) (start : Node) :
    ∀ (n : ℕ) (s : AState) (s1 : AState) (r : StopReason),
      OpenInv start s.came s.openq → WFcame start s.came →
      runA env n s = some (s1, r) → WFcame start s1.came := by
  intro n
  induction n with
  | zero =>
    intro s s1 r hO hW h
    unfold runA at h
    cases hstep : astarStep env s with
    | inr p =>
      rw [hstep] at h
      rcases p with ⟨a, b⟩
      simp only [Option.some.injEq, Prod.mk.injEq] at h
      obtain ⟨rfl, rfl⟩ := h
      exact (astarStep_pres env start s hO hW).2 a b hstep
    | inl s2 =>
      rw [hstep] at h
      simp at h
  | succ n ih =>
    intro s s1 r hO hW h
    cases hstep : astarStep env s with
    | inr p =>
      rw [runA_of_inr env s p hstep (n + 1)] at h
      rcases p with ⟨a, b⟩
      simp only [Option.some.injEq, Prod.mk.injEq] at h
      obtain ⟨rfl, rfl⟩ := h
      exact (astarStep_pres env start s hO hW).2 a b hstep
    | inl s2 =>
      rw [runA_of_inl env s s2 hstep n] at h
      obtain ⟨hO2, hW2⟩ := (astarStep_pres env start s hO hW).1 s2 hstep
      exact ih s2 s1 r hO2 hW2 h

lemma initState_inv (env : SearchEnv) (start : Node) :
    OpenInv start (initState env start).came (initState env start).openq ∧
      WFcame start (initState env start).came := by
  constructor
  · intro e he
    simp only [initState, List.mem_singleton] at he
    subst he
    constructor
    · intro _
      rfl
    · intro q hq
      cases hq
  · trivial

lemma success_dist_ge (start goal : Node) (came : List (Node × Option Node))
    (hwf : WFcame start came) (hmem : (alookup came goal).isSome = true) :
    havNm start.1 start.2 goal.1 goal.2 ≤
      pathDistNm ((chain came came.length goal).reverse) := by
  have hkeys : goal ∈ keysOf came := (alookup_mem_keys came goal).mp hmem
  obtain ⟨p, rest, hsuf⟩ := mem_keys_suffix came goal hkeys
  have hlen : ((goal, p) :: rest).length ≤ came.length := hsuf.length_le
  have hlast := chain_getLast_start start came hwf came.length goal p rest hsuf hlen
    came.length (by simp only [List.length_cons] at hlen; omega)
  obtain ⟨ltail, hcl⟩ := chain_head came came.length goal
  rcases hrev : (chain came came.length goal).reverse with _ | ⟨x, l⟩
  · exfalso
    have hnil : chain came came.length goal = [] := by
      have := congrArg List.reverse hrev
      simpa using this
    rw [hcl] at hnil
    cases hnil
  · have hx : x = start := by
      have h1 : (chain came came.length goal).reverse.head? = some x := by
        rw [hrev]
        try rfl
      rw [List.head?_reverse, hlast] at h1
      injection h1 with h2
      exact h2.symm
    subst hx
    have h1 : (x :: l).getLast? = some goal := by
      rw [← hrev, List.getLast?_reverse, hcl]
      try rfl
    have hlastgoal : (x :: l).getLast (List.cons_ne_nil x l) = goal :=
      Option.some.inj
        ((List.getLast?_eq_getLast (x :: l) (List.cons_ne_nil x l)).symm.trans h1)
    have hge := pathDistNm_ge l x
    rw [hlastgoal] at hge
    exact hge

/-- C5 amended.  For every request (any hazard circles, penalty and weights
included), when `a_star_route` falls back the reported distance equals the
great-circle distance between the original, unsnapped origin and destination
(which can be strictly below the snapped-node distance), and when A*
succeeds the reported distance — a sum of consecutive haversine segment
distances along the reconstructed grid path — is at least the great-circle
distance between the snapped origin and the snapped destination, by the
spherical triangle inequality. -/
theorem reported_distance_lower_bounds (pts : List (ℝ × ℝ)) (o d : Waypoint)
    (step : ℝ) (hazards : List HazardCircle) (pen : ℝ) (mn : ℤ) (pw : ℝ) :
    ((a_star_route pts o d step hazards pen mn pw).used_astar = false →
      (a_star_route pts o d step hazards pen mn pw).dist_nm =
        havNm o.lat o.lon d.lat d.lon) ∧
    ((a_star_route pts o d step hazards pen mn pw).used_astar = true →
      havNm (snap o.lat step) (snap o.lon step) (snap d.lat step) (snap d.lon step) ≤
        (a_star_route pts o d step hazards pen mn pw).dist_nm) := by
  obtain ⟨⟨s1, r⟩, hrun⟩ := runA_total
    ⟨pts, hazards, pen, pw, step, (snap d.lat step, snap d.lon step), mn⟩
    (astarFuel ⟨pts, hazards, pen, pw, step, (snap d.lat step, snap d.lon step), mn⟩)
    (initState ⟨pts, hazards, pen, pw, step, (snap d.lat step, snap d.lon step), mn⟩
      (snap o.lat step, snap o.lon step))
    (by unfold measureA astarFuel initState; simp) (by simp [initState])
  have hwf : WFcame (snap o.lat step, snap o.lon step) s1.came :=
    runA_wf _ (snap o.lat step, snap o.lon step) _ _ s1 r
      (initState_inv _ _).1 (initState_inv _ _).2 hrun
  simp only [a_star_route]
  rw [hrun]
  simp only
  by_cases hmem : (alookup s1.came (snap d.lat step, snap d.lon step)).isSome = true
  · rw [if_pos hmem]
    constructor
    · intro hfa
      simp at hfa
    · intro _
      exact success_dist_ge (snap o.lat step, snap o.lon step)
        (snap d.lat step, snap d.lon step) s1.came hwf hmem
  · rw [if_neg hmem]
    constructor
    · intro _
      rfl
    · intro htr
      simp at htr

lemma pyRound_04 : pyRound (0.4 : ℝ) = 0 := by
  unfold pyRound
  rw [if_neg, round_eq]
  · rw [show (0.4 : ℝ) + 1 / 2 = 0.9 from by norm_num]
    rw [Int.floor_eq_iff]
    norm_num
  · rw [Int.fract_eq_self.mpr ⟨by norm_num, by norm_num⟩]
    norm_num

lemma pyRound_06 : pyRound (0.6 : ℝ) = 1 := by
  unfold pyRound
  rw [if_neg, round_eq]
  · rw [show (0.6 : ℝ) + 1 / 2 = 1.1 from by norm_num]
    rw [Int.floor_eq_iff]
    norm_num
  · rw [Int.fract_eq_self.mpr ⟨by norm_num, by norm_num⟩]
    norm_num

lemma snap_04 : snap (0.4 : ℝ) 1 = 0 := by
  rw [snap_self_one, pyRound_04]
  norm_num

lemma snap_06 : snap (0.6 : ℝ) 1 = 1 := by
  rw [snap_self_one, pyRound_06]
  norm_num

lemma havNm_02_lt_1deg : havNm 0 0.4 0 0.6 < havNm 0 0 0 1 := by
  rw [havNm_equator, havNm_equator]
  rw [show ((0.6 : ℝ) - 0.4) * π / 360 = π / 1800 from by ring]
  rw [show ((1 : ℝ) - 0) * π / 360 = π / 360 from by ring]
  have hpi := Real.pi_pos
  rw [arcsin_abs_sin (by positivity) (by linarith),
      arcsin_abs_sin (by positivity) (by linarith)]
  unfold R_KM KM_TO_NM
  nlinarith

/-- C5 counterexample.  A request with zero penalty constant, zero piracy
weight, no hazard circles and grid step 1 whose snapped endpoints differ:
the search falls back (budget 0) and reports the haversine distance between
the unsnapped endpoints, 0.2 degrees of equator, which is strictly below
the great-circle distance between the snapped origin and the snapped
destination (1 degree of equator) — so the reported distance is not always
at least the snapped-endpoint great-circle distance. -/
theorem fallback_distance_below_snapped_distance :
    (a_star_route [] ⟨0, 0.4⟩ ⟨0, 0.6⟩ 1 [] 0 0 0).used_astar = false ∧
    (a_star_route [] ⟨0, 0.4⟩ ⟨0, 0.6⟩ 1 [] 0 0 0).dist_nm <
      havNm (snap 0 1) (snap 0.4 1) (snap 0 1) (snap 0.6 1) := by
  have hne : ((snap (0 : ℝ) 1, snap (0.4 : ℝ) 1) : Node) ≠
      (snap (0 : ℝ) 1, snap (0.6 : ℝ) 1) := by
    rw [snap_zero_step, snap_04, snap_06]
    norm_num [Prod.ext_iff]
  have h := a_star_budget0 [] ⟨0, 0.4⟩ ⟨0, 0.6⟩ 1 [] 0 0 hne
  rw [h]
  refine ⟨rfl, ?_⟩
  rw [snap_zero_step, snap_04, snap_06]
  exact havNm_02_lt_1deg

-- ----------------------------------------------------------------------------
-- Great-circle interpolation: segment count, endpoints and the n = 0 crash (C6)
-- ----------------------------------------------------------------------------

lemma atan2_polar (θ r : ℝ) (h : θ ∈ Set.Ioc (-π) π) (hr : 0 < r) :
    atan2 (r * sin θ) (r * cos θ) = θ := by
  unfold atan2
  have he : Complex.ofReal (r * Real.cos θ) + Complex.ofReal (r * Real.sin θ) * Complex.I =
      (r : Complex) * (Complex.cos θ + Complex.sin θ * Complex.I) := by
    push_cast [Complex.ofReal_cos, Complex.ofReal_sin]
    ring
  rw [he, Complex.arg_real_mul _ hr, Complex.arg_cos_add_sin_mul_I h]

lemma pymod_540 (t : ℝ) (h1 : -180 ≤ t) (h2 : t < 180) :
    pymod (t + 540) 360 - 180 = t := by
  unfold pymod
  have hf : (⌊(t + 540) / 360⌋ : ℤ) = 1 := by
    rw [Int.floor_eq_iff]
    constructor
    · rw [le_div_iff₀ (by norm_num : (0:ℝ) < 360)]
      push_cast
      linarith
    · rw [div_lt_iff₀ (by norm_num : (0:ℝ) < 360)]
      push_cast
      linarith
  rw [hf]
  push_cast
  ring

lemma pymod_720 : pymod 720 360 = 0 := by
  unfold pymod
  have hf : (⌊(720:ℝ) / 360⌋ : ℤ) = 2 := by
    rw [Int.floor_eq_iff]
    constructor
    · norm_num
    · norm_num
  rw [hf]
  norm_num

lemma rad_abs (x : ℝ) : |rad x| = |x| * π / 180 := by
  unfold rad
  rw [abs_div, abs_mul, abs_of_pos Real.pi_pos, abs_of_pos (by norm_num : (0:ℝ) < 180)]

lemma rad_deg (x : ℝ) : rad x * 180 / π = x := by
  unfold rad
  field_simp

lemma rad_abs_lt_half (x : ℝ) (hb : |x| < 90) : |rad x| < π / 2 := by
  rw [rad_abs]
  have h2 : |x| * π < 90 * π := mul_lt_mul_of_pos_right hb Real.pi_pos
  linarith

lemma rad_lat_cos_pos (x : ℝ) (hb : |x| < 90) : 0 < cos (rad x) := by
  exact Real.cos_pos_of_mem_Ioo (Set.mem_Ioo.mpr (abs_lt.mp (rad_abs_lt_half x hb)))

lemma rad_lat_mem (x : ℝ) (hb : |x| < 90) : rad x ∈ Set.Ioc (-π) π := by
  have h1 := abs_lt.mp (rad_abs_lt_half x hb)
  have hpi := Real.pi_pos
  exact Set.mem_Ioc.mpr ⟨by linarith [h1.1], by linarith [h1.2]⟩

lemma rad_lon_mem (x : ℝ) (h1 : -180 ≤ x) (h2 : x < 180) : rad x ∈ Set.Ico (-π) π := by
  have hpi := Real.pi_pos
  unfold rad
  refine Set.mem_Ico.mpr ⟨?_, ?_⟩
  · have h3 : -180 * π ≤ x * π := mul_le_mul_of_nonneg_right h1 hpi.le
    linarith
  · have h3 : x * π < 180 * π := mul_lt_mul_of_pos_right h2 hpi
    linarith

lemma interpPoint_zero (ph1 la1 ph2 la2 d : ℝ) (hsin : sin d ≠ 0)
    (hph : 0 < cos ph1) (hphm : ph1 ∈ Set.Ioc (-π) π) (hla : la1 ∈ Set.Ico (-π) π) :
    interpPoint ph1 la1 ph2 la2 d 0 = (la1 * 180 / π, ph1 * 180 / π) := by
  simp only [interpPoint]
  rw [show (1 - (0:ℝ)) * d = d from by ring, show (0:ℝ) * d = 0 from by ring,
      Real.sin_zero, zero_div, div_self hsin]
  rw [show (1:ℝ) * Real.cos ph1 * Real.cos la1 + 0 * Real.cos ph2 * Real.cos la2 =
        Real.cos ph1 * Real.cos la1 from by ring,
      show (1:ℝ) * Real.cos ph1 * Real.sin la1 + 0 * Real.cos ph2 * Real.sin la2 =
        Real.cos ph1 * Real.sin la1 from by ring,
      show (1:ℝ) * Real.sin ph1 + 0 * Real.sin ph2 = Real.sin ph1 from by ring]
  have hxy : Real.cos ph1 * Real.cos la1 * (Real.cos ph1 * Real.cos la1) +
      Real.cos ph1 * Real.sin la1 * (Real.cos ph1 * Real.sin la1) = Real.cos ph1 ^ 2 := by
    have h1 : Real.cos ph1 * Real.cos la1 * (Real.cos ph1 * Real.cos la1) +
        Real.cos ph1 * Real.sin la1 * (Real.cos ph1 * Real.sin la1) =
        Real.cos ph1 ^ 2 * (Real.sin la1 ^ 2 + Real.cos la1 ^ 2) := by ring
    rw [h1, Real.sin_sq_add_cos_sq, mul_one]
  rw [hxy, Real.sqrt_sq hph.le]
  have h1 : atan2 (Real.sin ph1) (Real.cos ph1) = ph1 := by
    have := atan2_polar ph1 1 hphm one_pos
    simpa using this
  rw [h1]
  rcases eq_or_lt_of_le hla.1 with heq | hlt
  · rw [← heq]
    rw [Real.sin_neg, Real.sin_pi, Real.cos_neg, Real.cos_pi]
    rw [show Real.cos ph1 * -(0:ℝ) = 0 from by ring,
        show Real.cos ph1 * (-1:ℝ) = -Real.cos ph1 from by ring]
    have harg : atan2 0 (-Real.cos ph1) = π := by
      unfold atan2
      rw [Complex.ofReal_zero, zero_mul, add_zero]
      exact Complex.arg_ofReal_of_neg (by linarith)
    rw [harg]
    have h180 : π * 180 / π = 180 := by
      field_simp
    rw [h180, show (180:ℝ) + 540 = 720 from by norm_num, pymod_720]
    have hr : -π * 180 / π = -180 := by
      rw [neg_mul, neg_div, h180]
    rw [hr]
    norm_num
  · have h2 : atan2 (Real.cos ph1 * Real.sin la1) (Real.cos ph1 * Real.cos la1) = la1 :=
      atan2_polar la1 (Real.cos ph1) (Set.mem_Ioc.mpr ⟨hlt, hla.2.le⟩) hph
    rw [h2]
    have hpi := Real.pi_pos
    have hb1 : -180 ≤ la1 * 180 / π := by
      rw [le_div_iff₀ hpi]
      linarith [hla.1]
    have hb2 : la1 * 180 / π < 180 := by
      rw [div_lt_iff₀ hpi]
      linarith [hla.2]
    rw [pymod_540 _ hb1 hb2]

lemma interpPoint_one (ph1 la1 ph2 la2 d : ℝ) (hsin : sin d ≠ 0)
    (hph : 0 < cos ph2) (hphm : ph2 ∈ Set.Ioc (-π) π) (hla : la2 ∈ Set.Ico (-π) π) :
    interpPoint ph1 la1 ph2 la2 d 1 = (la2 * 180 / π, ph2 * 180 / π) := by
  simp only [interpPoint]
  rw [show (1 - (1:ℝ)) * d = 0 from by ring, show (1:ℝ) * d = d from by ring,
      Real.sin_zero, zero_div, div_self hsin]
  rw [show (0:ℝ) * Real.cos ph1 * Real.cos la1 + 1 * Real.cos ph2 * Real.cos la2 =
        Real.cos ph2 * Real.cos la2 from by ring,
      show (0:ℝ) * Real.cos ph1 * Real.sin la1 + 1 * Real.cos ph2 * Real.sin la2 =
        Real.cos ph2 * Real.sin la2 from by ring,
      show (0:ℝ) * Real.sin ph1 + 1 * Real.sin ph2 = Real.sin ph2 from by ring]
  have hxy : Real.cos ph2 * Real.cos la2 * (Real.cos ph2 * Real.cos la2) +
      Real.cos ph2 * Real.sin la2 * (Real.cos ph2 * Real.sin la2) = Real.cos ph2 ^ 2 := by
    have h1 : Real.cos ph2 * Real.cos la2 * (Real.cos ph2 * Real.cos la2) +
        Real.cos ph2 * Real.sin la2 * (Real.cos ph2 * Real.sin la2) =
        Real.cos ph2 ^ 2 * (Real.sin la2 ^ 2 + Real.cos la2 ^ 2) := by ring
    rw [h1, Real.sin_sq_add_cos_sq, mul_one]
  rw [hxy, Real.sqrt_sq hph.le]
  have h1 : atan2 (Real.sin ph2) (Real.cos ph2) = ph2 := by
    have := atan2_polar ph2 1 hphm one_pos
    simpa using this
  rw [h1]
  rcases eq_or_lt_of_le hla.1 with heq | hlt
  · rw [← heq]
    rw [Real.sin_neg, Real.sin_pi, Real.cos_neg, Real.cos_pi]
    rw [show Real.cos ph2 * -(0:ℝ) = 0 from by ring,
        show Real.cos ph2 * (-1:ℝ) = -Real.cos ph2 from by ring]
    have harg : atan2 0 (-Real.cos ph2) = π := by
      unfold atan2
      rw [Complex.ofReal_zero, zero_mul, add_zero]
      exact Complex.arg_ofReal_of_neg (by linarith)
    rw [harg]
    have h180 : π * 180 / π = 180 := by
      field_simp
    rw [h180, show (180:ℝ) + 540 = 720 from by norm_num, pymod_720]
    have hr : -π * 180 / π = -180 := by
      rw [neg_mul, neg_div, h180]
    rw [hr]
    norm_num
  · have h2 : atan2 (Real.cos ph2 * Real.sin la2) (Real.cos ph2 * Real.cos la2) = la2 :=
      atan2_polar la2 (Real.cos ph2) (Set.mem_Ioc.mpr ⟨hlt, hla.2.le⟩) hph
    rw [h2]
    have hpi := Real.pi_pos
    have hb1 : -180 ≤ la2 * 180 / π := by
      rw [le_div_iff₀ hpi]
      linarith [hla.1]
    have hb2 : la2 * 180 / π < 180 := by
      rw [div_lt_iff₀ hpi]
      linarith [hla.2]
    rw [pymod_540 _ hb1 hb2]

lemma geoD_bounds (a b c d : ℝ) : 0 ≤ geoD a b c d ∧ geoD a b c d ≤ π := by
  obtain ⟨h1, h2⟩ := dot3_le_one _ _ (dot3_self_uvec a b) (dot3_self_uvec c d)
  have hA0 : 0 ≤ havA a b c d := by
    rw [havA_eq_dot]
    linarith
  have hA1 : havA a b c d ≤ 1 := by
    rw [havA_eq_dot]
    linarith
  unfold geoD
  have hs0 : 0 ≤ Real.sqrt (havA a b c d) := Real.sqrt_nonneg _
  have hs1 : Real.sqrt (havA a b c d) ≤ 1 := by
    rw [show (1:ℝ) = Real.sqrt 1 from Real.sqrt_one.symm]
    exact Real.sqrt_le_sqrt hA1
  constructor
  · have h := Real.arcsin_nonneg.mpr hs0
    linarith
  · have h := Real.arcsin_le_pi_div_two (Real.sqrt (havA a b c d))
    linarith

lemma head_map_range (n : ℕ) (f : ℕ → ℝ × ℝ) :
    ((List.range (n + 1)).map f).head? = some (f 0) := by
  rw [List.range_succ_eq_map]
  rfl

lemma last_map_range (n : ℕ) (f : ℕ → ℝ × ℝ) :
    ((List.range (n + 1)).map f).getLast? = some (f n) := by
  rw [List.range_succ, List.map_append, List.map_cons, List.map_nil, List.getLast?_concat]

lemma geoD_0_180 : geoD 0 0 0 180 = π := by
  have hA : havA 0 0 0 180 = 1 := by
    unfold havA rad
    rw [show ((180:ℝ) * π / 180 - 0 * π / 180) / 2 = π / 2 from by ring,
        show (((0:ℝ) * π / 180 - 0 * π / 180) / 2 : ℝ) = 0 from by ring,
        show ((0:ℝ) * π / 180 : ℝ) = 0 from by ring]
    rw [Real.sin_zero, Real.cos_zero, Real.sin_pi_div_two]
    norm_num
  unfold geoD
  rw [hA, Real.sqrt_one, Real.arcsin_one]
  ring

/-- C6 counterexample.  Antipodal endpoints on the equator have angular
separation `π ≠ 0`, so with `n = 0` the source reaches `f = i / n` and
raises `ZeroDivisionError` (modelled as `none`): the function does not
return `n + 1 = 1` points for this pair, it crashes. -/
theorem interpolate_zero_segments_fails :
    interpolate_geodesic 0 0 0 180 0 = none := by
  simp only [interpolate_geodesic]
  rw [geoD_0_180]
  rw [if_neg Real.pi_ne_zero]
  simp

/-- C6 amended.  For every segment count `n ≥ 1` (with `n = 0` the source
instead raises `ZeroDivisionError` at `f = i / n` whenever the separation is
nonzero): if the angular separation is zero the function returns the single
input point `[(lon1, lat1)]` rather than `n + 1` points; otherwise it
returns exactly `n + 1` points, and the first point equals `(lon1, lat1)`
and the last equals `(lon2, lat2)` — exactly: the degree conversion on
line 61 divides by the literal `3.141592653589793`, which is precisely the
binary64 value of the `math.pi` used by `math.radians`, so the two
conversions cancel.  The endpoint part is stated for latitudes strictly
between the poles, longitudes in `[-180, 180)` and non-antipodal endpoints:
those three measure-zero configurations are where this exact-real model
departs from the program's doubles — in `ℝ`, `cos (π / 2)` and `sin π`
vanish exactly, collapsing the model's `atan2` recovery and the `sin d`
divisions, whereas the corresponding doubles (`cos(radians(90))`,
`sin(d)` at antipodes, `radians(180)` falling short of π) are not exact zeros — so no
violation of the property is claimed there. -/
theorem interpolate_count_and_endpoints (lat1 lon1 lat2 lon2 : ℝ) (n : ℕ)
    (hn : 1 ≤ n) :
    (geoD lat1 lon1 lat2 lon2 = 0 →
      interpolate_geodesic lat1 lon1 lat2 lon2 n = some [(lon1, lat1)]) ∧
    (geoD lat1 lon1 lat2 lon2 ≠ 0 →
      ∃ ps, interpolate_geodesic lat1 lon1 lat2 lon2 n = some ps ∧
        ps.length = n + 1 ∧
        (|lat1| < 90 → |lat2| < 90 →
          lon1 ∈ Set.Ico (-180 : ℝ) 180 → lon2 ∈ Set.Ico (-180 : ℝ) 180 →
          geoD lat1 lon1 lat2 lon2 ≠ π →
          ps.head? = some (lon1, lat1) ∧ ps.getLast? = some (lon2, lat2))) := by
  have hn0 : ¬ (n = 0) := by omega
  constructor
  · intro hd0
    simp only [interpolate_geodesic]
    rw [if_pos hd0]
  · intro hd
    refine ⟨(List.range (n + 1)).map
        (fun i : ℕ => interpPoint (rad lat1) (rad lon1) (rad lat2) (rad lon2)
          (geoD lat1 lon1 lat2 lon2) ((i : ℝ) / (n : ℝ))), ?_, ?_, ?_⟩
    · simp only [interpolate_geodesic]
      rw [if_neg hd, if_neg hn0]
    · simp [List.length_map, List.length_range]
    · intro hlat1 hlat2 hlon1 hlon2 hdpi
      obtain ⟨hd0, hdle⟩ := geoD_bounds lat1 lon1 lat2 lon2
      have hdpos : 0 < geoD lat1 lon1 lat2 lon2 := lt_of_le_of_ne hd0 (Ne.symm hd)
      have hdlt : geoD lat1 lon1 lat2 lon2 < π := lt_of_le_of_ne hdle hdpi
      have hsin : sin (geoD lat1 lon1 lat2 lon2) ≠ 0 :=
        ne_of_gt (Real.sin_pos_of_pos_of_lt_pi hdpos hdlt)
      have hcos1 : 0 < cos (rad lat1) := rad_lat_cos_pos lat1 hlat1
      have hcos2 : 0 < cos (rad lat2) := rad_lat_cos_pos lat2 hlat2
      have hm1 : rad lat1 ∈ Set.Ioc (-π) π := rad_lat_mem lat1 hlat1
      have hm2 : rad lat2 ∈ Set.Ioc (-π) π := rad_lat_mem lat2 hlat2
      have hl1 : rad lon1 ∈ Set.Ico (-π) π := rad_lon_mem lon1 hlon1.1 hlon1.2
      have hl2 : rad lon2 ∈ Set.Ico (-π) π := rad_lon_mem lon2 hlon2.1 hlon2.2
      have hnn : ((n : ℝ)) / (n : ℝ) = 1 := div_self (Nat.cast_ne_zero.mpr hn0)
      constructor
      · rw [head_map_range]
        simp only [Nat.cast_zero, zero_div]
        rw [interpPoint_zero _ _ _ _ _ hsin hcos1 hm1 hl1]
        rw [rad_deg, rad_deg]
      · rw [last_map_range]
        simp only [hnn]
        rw [interpPoint_one _ _ _ _ _ hsin hcos2 hm2 hl2]
        rw [rad_deg, rad_deg]

theorem interpolate_count_and_endpoints_witness :
    (1 : ℕ) ≤ 1 ∧
    ((geoD 0 0 0 0 = 0 →
      interpolate_geodesic 0 0 0 0 1 = some [(0, 0)]) ∧
     (geoD 0 0 0 0 ≠ 0 →
      ∃ ps, interpolate_geodesic 0 0 0 0 1 = some ps ∧
        ps.length = 1 + 1 ∧
        (|(0:ℝ)| < 90 → |(0:ℝ)| < 90 →
          (0:ℝ) ∈ Set.Ico (-180 : ℝ) 180 → (0:ℝ) ∈ Set.Ico (-180 : ℝ) 180 →
          geoD 0 0 0 0 ≠ π →
          ps.head? = some (0, 0) ∧ ps.getLast? = some (0, 0)))) :=
  ⟨le_refl 1, interpolate_count_and_endpoints 0 0 0 0 1 (le_refl 1)⟩
